import Mathlib

/-!
A verification development for a small Redis-like server written in Rust
(modules `cursor.rs`, `resp.rs`, `commands.rs`, `kv.rs`).

Modelling conventions, shared by the whole file:

* Rust byte slices (`&[u8]`, `Vec<u8>`) are `List Nat`, each element < 256 in
  every reachable state; Rust `String` payloads are modelled by their UTF-8
  byte lists (`List Nat`), with UTF-8 validity tracked explicitly where the
  code checks it.
* `usize` arithmetic is `Nat` with the overflow boundary `2 ^ 64` made
  explicit where the code can cross it.
* A Rust panic (index out of bounds, arithmetic overflow in debug builds and
  the corresponding slice-bound panic in release builds, `Option::unwrap` /
  `Result::unwrap` on the failing case) is modelled as the distinguished
  outcome `crash`, separate from the program's own `Error` values.
* The recursive RESP parser is written with an explicit fuel parameter so
  that every definition stays structurally recursive and kernel-reducible;
  the entry point supplies fuel `2 * input.length + 1`, which is shown
  sufficient (fuel exhaustion is unreachable) by `parseValue_no_fuel`.
* Rust `f64` double values are modelled by their decimal display text (a
  byte list): `f64::to_string` is the identity on that text and
  `str::parse::<f64>` is modelled by a grammar check.  Rust's `Display` for
  finite doubles emits the shortest uniquely-reparsing decimal, so on those
  canonical texts byte-list equality coincides with `f64` equality.
-/

namespace RedisRust

/-! ## ASCII / decimal helpers -/

/-- The RESP line terminator `\r\n` as bytes. -/
def crlf : List Nat := [13, 10]

/-- ASCII bytes of a Lean string; callers only pass ASCII-only literals, for
which this equals the string's UTF-8 bytes. -/
def ascii (s : String) : List Nat := s.data.map Char.toNat

/-- Is this byte an ASCII decimal digit? -/
def isDigitB (b : Nat) : Bool := 48 ≤ b && b ≤ 57

/-- Numeric value of an all-digit byte list (most significant first). -/
def decDigitsVal (l : List Nat) : Nat := l.foldl (fun acc d => acc * 10 + (d - 48)) 0

/-- Value of a nonempty, all-ASCII-digit byte list; `none` otherwise. -/
def decValue? (l : List Nat) : Option Nat :=
  if l = [] then none else if l.all isDigitB then some (decDigitsVal l) else none

def i64Max : Int := 2 ^ 63 - 1

def u64Max : Nat := 2 ^ 64 - 1

/-- Rust `str::parse::<i64>` on the raw line bytes: optional `+`/`-` sign, one
or more ASCII digits, value within the `i64` range.  A line that is not valid
UTF-8 contains a non-ASCII byte, which already fails the digit check, so the
code's separate UTF-8 test (whose failure produces the same `InvalidInput`
kind) needs no separate modelling here. -/
def parseI64 (l : List Nat) : Option Int :=
  match l with
  | 43 :: rest => (decValue? rest).bind fun n => if (n : Int) ≤ i64Max then some (n : Int) else none
  | 45 :: rest => (decValue? rest).bind fun n => if (n : Int) ≤ 2 ^ 63 then some (-(n : Int)) else none
  | _ => (decValue? l).bind fun n => if (n : Int) ≤ i64Max then some (n : Int) else none

/-- Rust `str::parse::<u64>`: optional `+` sign (no `-`), digits, within `u64`. -/
def parseU64 (l : List Nat) : Option Nat :=
  match l with
  | 43 :: rest => (decValue? rest).bind fun n => if n ≤ u64Max then some n else none
  | _ => (decValue? l).bind fun n => if n ≤ u64Max then some n else none

/-- Fuelled decimal rendering; fuel bounds the digit count, `natToDec`
supplies enough. -/
def natToDecAux : Nat → Nat → List Nat
  | 0, _ => []
  | fuel + 1, n => if n < 10 then [48 + n] else natToDecAux fuel (n / 10) ++ [48 + n % 10]

/-- Decimal ASCII rendering of a `Nat` (Rust `usize::to_string` /
the nonnegative case of `i64::to_string`). -/
def natToDec (n : Nat) : List Nat := natToDecAux (n + 1) n

/-- Rust `i64::to_string`: a `-` sign for negative values, then digits. -/
def intToDec (i : Int) : List Nat :=
  if i < 0 then 45 :: natToDec (-i).toNat else natToDec i.toNat

/-- Is this byte a UTF-8 continuation byte (`0x80..=0xBF`)? -/
def isCont (b : Nat) : Bool := 128 ≤ b && b ≤ 191

mutual

/-- UTF-8 validity of a byte list, following the shortest-form table enforced
by Rust's `std::str::from_utf8` / `String::from_utf8`; one helper per
lead-byte class checks that class's continuation bytes. -/
def validUtf8 : List Nat → Bool
  | [] => true
  | b :: rest =>
    if b ≤ 127 then validUtf8 rest
    else if 194 ≤ b && b ≤ 223 then utf8Tail1 rest
    else if b = 224 then utf8TailE0 rest
    else if 225 ≤ b && b ≤ 236 then utf8Tail2 rest
    else if b = 237 then utf8TailED rest
    else if 238 ≤ b && b ≤ 239 then utf8Tail2 rest
    else if b = 240 then utf8TailF0 rest
    else if 241 ≤ b && b ≤ 243 then utf8Tail3 rest
    else if b = 244 then utf8TailF4 rest
    else false
termination_by structural l => l

/-- One continuation byte (lead bytes `C2`..`DF`). -/
def utf8Tail1 : List Nat → Bool
  | c1 :: r => isCont c1 && validUtf8 r
  | [] => false
termination_by structural l => l

/-- Lead byte `E0`: first continuation restricted to `A0`..`BF`. -/
def utf8TailE0 : List Nat → Bool
  | c1 :: c2 :: r => (160 ≤ c1 && c1 ≤ 191) && isCont c2 && validUtf8 r
  | _ => false
termination_by structural l => l

/-- Two continuation bytes (lead bytes `E1`..`EC`, `EE`..`EF`). -/
def utf8Tail2 : List Nat → Bool
  | c1 :: c2 :: r => isCont c1 && isCont c2 && validUtf8 r
  | _ => false
termination_by structural l => l

/-- Lead byte `ED`: first continuation restricted to `80`..`9F` (no surrogates). -/
def utf8TailED : List Nat → Bool
  | c1 :: c2 :: r => (128 ≤ c1 && c1 ≤ 159) && isCont c2 && validUtf8 r
  | _ => false
termination_by structural l => l

/-- Lead byte `F0`: first continuation restricted to `90`..`BF`. -/
def utf8TailF0 : List Nat → Bool
  | c1 :: c2 :: c3 :: r => (144 ≤ c1 && c1 ≤ 191) && isCont c2 && isCont c3 && validUtf8 r
  | _ => false
termination_by structural l => l

/-- Three continuation bytes (lead bytes `F1`..`F3`). -/
def utf8Tail3 : List Nat → Bool
  | c1 :: c2 :: c3 :: r => isCont c1 && isCont c2 && isCont c3 && validUtf8 r
  | _ => false
termination_by structural l => l

/-- Lead byte `F4`: first continuation restricted to `80`..`8F`. -/
def utf8TailF4 : List Nat → Bool
  | c1 :: c2 :: c3 :: r => (128 ≤ c1 && c1 ≤ 143) && isCont c2 && isCont c3 && validUtf8 r
  | _ => false
termination_by structural l => l

end

/-! ## Cursor (`cursor.rs`) -/

/-- The two variants of `cursor::Error`. -/
inductive CursorError where
  | unexpectedEOF
  | invalidInput
  deriving DecidableEq, Repr

/-- Outcome layer for cursor/codec operations: a program-level `Error`, a Rust
panic (`crash`), or — an artefact of the fuel encoding, proved unreachable
from the parser entry point — `outOfFuel`. -/
inductive PErr where
  | err (e : CursorError)
  | crash
  | outOfFuel
  deriving DecidableEq, Repr

namespace Cursor

/-- `Cursor::read`: `n` bytes from `pos`, advancing.  The Rust guard computes
`self.position + n` in `usize`: when that sum reaches `2 ^ 64` the addition
overflows (debug builds panic there; release builds wrap and then panic on the
reversed slice bounds, since every reachable position satisfies
`pos ≤ input.length`), modelled as `crash`. -/
def read (input : List Nat) (pos n : Nat) : Except PErr (List Nat × Nat) :=
  if 2 ^ 64 ≤ pos + n then .error .crash
  else if input.length < pos + n then .error (.err .unexpectedEOF)
  else .ok ((input.drop pos).take n, pos + n)

/-- `Cursor::read_byte`. -/
def readByte (input : List Nat) (pos : Nat) : Except PErr (Nat × Nat) :=
  if h : pos < input.length then .ok (input.get ⟨pos, h⟩, pos + 1)
  else .error (.err .unexpectedEOF)

/-- Scanning loop of `Cursor::read_line`: `while position < input.len() - 1`,
looking for `\r\n`.  Structured with fuel (one unit per loop step);
`readLine` supplies `input.length`, which the loop can never exhaust since
each step increases `p` below the bound `input.length - 1`. -/
def readLineGo (input : List Nat) (start : Nat) : Nat → Nat → Except PErr (List Nat × Nat)
  | 0, _ => .error (.err .unexpectedEOF)
  | fuel + 1, p =>
    if p < input.length - 1 then
      if input.getD p 0 = 13 ∧ input.getD (p + 1) 0 = 10 then
        .ok ((input.drop start).take (p - start), p + 2)
      else
        readLineGo input start fuel (p + 1)
    else .error (.err .unexpectedEOF)

/-- `Cursor::read_line`.  On an empty buffer the Rust loop bound
`self.input.len() - 1` underflows: debug builds panic on the subtraction, and
release builds wrap to `usize::MAX` and then panic indexing `input[0]` — a
crash either way. -/
def readLine (input : List Nat) (pos : Nat) : Except PErr (List Nat × Nat) :=
  if input.length = 0 then .error .crash
  else readLineGo input pos input.length pos

/-- `Cursor::read_string`: a line, required to be valid UTF-8 (else
`InvalidInput`).  The resulting Rust `String` is modelled by its bytes. -/
def readString (input : List Nat) (pos : Nat) : Except PErr (List Nat × Nat) :=
  match readLine input pos with
  | .ok (line, p) => if validUtf8 line then .ok (line, p) else .error (.err .invalidInput)
  | .error e => .error e

/-- `Cursor::read_integer`: a line parsed as an `i64`; both the UTF-8 failure
and the integer-parse failure produce `InvalidInput` (and `parseI64` rejects
any non-UTF-8 line byte-wise), so one check suffices. -/
def readInteger (input : List Nat) (pos : Nat) : Except PErr (Int × Nat) :=
  match readLine input pos with
  | .ok (line, p) =>
    match parseI64 line with
    | some n => .ok (n, p)
    | none => .error (.err .invalidInput)
  | .error e => .error e

end Cursor

/-! ## RESP values and the encoder (`resp.rs`) -/

/-- `RespValue` from `resp.rs`.  String payloads are UTF-8 byte lists; the
`Double(f64)` payload is modelled by its decimal display text (see the file
header); `True`/`False` are `trueV`/`falseV` (`true`/`false` clash with the
`Bool` literals). -/
inductive RespValue where
  | array (vs : List RespValue)
  | bigNumber (s : List Nat)
  | bulkError (s : List Nat)
  | bulkString (s : List Nat)
  | double (repr : List Nat)
  | error (s : List Nat)
  | falseV
  | integer (n : Int)
  | map (entries : List (RespValue × RespValue))
  | nan
  | negativeInfinity
  | null
  | nullBulkString
  | positiveInfinity
  | set (vs : List RespValue)
  | simpleString (s : List Nat)
  | trueV
  | verbatimString (encoding : List Nat) (s : List Nat)

mutual

/-- `RespValue::as_bytes`, variant by variant in the source's layout. -/
def RespValue.asBytes : RespValue → List Nat
  | .array vs => 42 :: (natToDec vs.length ++ crlf ++ RespValue.asBytesList vs)
  | .bigNumber s => 40 :: (s ++ crlf)
  | .bulkError s => 33 :: (natToDec s.length ++ crlf ++ s ++ crlf)
  | .bulkString s => 36 :: (natToDec s.length ++ crlf ++ s ++ crlf)
  | .double repr => 44 :: (repr ++ crlf)
  | .error s => 45 :: (s ++ crlf)
  | .falseV => [35, 102, 13, 10]
  | .integer n => 58 :: (intToDec n ++ crlf)
  | .map entries => 37 :: (natToDec entries.length ++ crlf ++ RespValue.asBytesPairs entries)
  | .nan => [44, 110, 97, 110, 13, 10]
  | .negativeInfinity => [44, 45, 105, 110, 102, 13, 10]
  | .null => [95, 13, 10]
  | .nullBulkString => [36, 45, 49, 13, 10]
  | .positiveInfinity => [44, 105, 110, 102, 13, 10]
  | .set vs => 126 :: (natToDec vs.length ++ crlf ++ RespValue.asBytesList vs)
  | .simpleString s => 43 :: (s ++ crlf)
  | .trueV => [35, 116, 13, 10]
  | .verbatimString encoding s =>
    61 :: (natToDec (encoding.length + s.length + 1) ++ crlf ++ encoding ++ [58] ++ s ++ crlf)

/-- Array/set elements: each element's encoding, concatenated in order. -/
def RespValue.asBytesList : List RespValue → List Nat
  | [] => []
  | v :: vs => v.asBytes ++ RespValue.asBytesList vs

/-- Map entries: key encoding then value encoding, pair by pair. -/
def RespValue.asBytesPairs : List (RespValue × RespValue) → List Nat
  | [] => []
  | (k, v) :: rest => k.asBytes ++ v.asBytes ++ RespValue.asBytesPairs rest

end

/-! ## The RESP decoder (`resp.rs::parse_value`) -/

/-- Rust's `as usize` cast of an `i64`: two's-complement reinterpretation. -/
def i64ToUsize (n : Int) : Nat := (n % (2 : Int) ^ 64).toNat

/-- ASCII lowercase of one byte. -/
def toLowerB (b : Nat) : Nat := if 65 ≤ b && b ≤ 90 then b + 32 else b

/-- Case-insensitive (ASCII) comparison of a byte list against a literal. -/
def ciEq (l : List Nat) (s : String) : Bool := l.map toLowerB = ascii s

/-- Split at the first `e`/`E`, if any: (mantissa part, exponent part). -/
def splitExp : List Nat → List Nat × Option (List Nat)
  | [] => ([], none)
  | b :: r =>
    if b = 101 ∨ b = 69 then ([], some r)
    else
      let p := splitExp r
      (b :: p.1, p.2)

/-- Drop one optional leading ASCII sign. -/
def stripSign : List Nat → List Nat
  | 43 :: r => r
  | 45 :: r => r
  | l => l

/-- Mantissa: digits and at most one dot, with at least one digit. -/
def isMantissa (l : List Nat) : Bool :=
  l.all (fun b => isDigitB b || b = 46) && l.countP (· = 46) ≤ 1 && l.any isDigitB

/-- Exponent: optional sign then one or more digits. -/
def isExpPart (l : List Nat) : Bool :=
  let d := stripSign l
  d ≠ [] && d.all isDigitB

/-- Acceptance of Rust `str::parse::<f64>` on the line bytes (a non-UTF-8
line necessarily contains a byte outside the grammar, so the code's separate
UTF-8 check — same `InvalidInput` kind — needs no separate modelling). -/
def rustF64Valid (l : List Nat) : Bool :=
  let body := stripSign l
  ciEq body "inf" || ciEq body "infinity" || ciEq body "nan" ||
    (let p := splitExp body
     isMantissa p.1 &&
       match p.2 with
       | none => true
       | some e => isExpPart e)

mutual

/-- `resp.rs::parse_value`, with fuel: every recursive call (both into a
nested value and along an element sequence) decrements it, keeping the
definition structurally recursive; `parse` supplies fuel that can never run
out.  Branches appear in the source's order of match arms. -/
def parseValue : Nat → List Nat → Nat → Except PErr (RespValue × Nat)
  | 0, _, _ => .error .outOfFuel
  | fuel + 1, input, pos =>
    match Cursor.readByte input pos with
    | .error e => .error e
    | .ok (b, p0) =>
      if b = 43 then
        match Cursor.readString input p0 with
        | .ok (s, p1) => .ok (.simpleString s, p1)
        | .error e => .error e
      else if b = 45 then
        match Cursor.readString input p0 with
        | .ok (s, p1) => .ok (.error s, p1)
        | .error e => .error e
      else if b = 58 then
        match Cursor.readInteger input p0 with
        | .ok (n, p1) => .ok (.integer n, p1)
        | .error e => .error e
      else if b = 36 then
        match Cursor.readInteger input p0 with
        | .error e => .error e
        | .ok (len, p1) =>
          if len = -1 then .ok (.nullBulkString, p1)
          else
            match Cursor.read input p1 (i64ToUsize len) with
            | .error e => .error e
            | .ok (data, p2) =>
              if validUtf8 data then
                match Cursor.read input p2 2 with
                | .error e => .error e
                | .ok (t, p3) =>
                  if t = crlf then .ok (.bulkString data, p3)
                  else .error (.err .invalidInput)
              else .error (.err .invalidInput)
      else if b = 42 then
        match Cursor.readInteger input p0 with
        | .error e => .error e
        | .ok (len, p1) =>
          if len = -1 then .ok (.null, p1)
          else
            match parseItems fuel input p1 len.toNat with
            | .ok (items, p2) => .ok (.array items, p2)
            | .error e => .error e
      else if b = 95 then
        match Cursor.read input p0 2 with
        | .error e => .error e
        | .ok (t, p1) =>
          if t = crlf then .ok (.null, p1) else .error (.err .invalidInput)
      else if b = 35 then
        match Cursor.readByte input p0 with
        | .error e => .error e
        | .ok (c, p1) =>
          if c = 116 then .ok (.trueV, p1)
          else if c = 102 then .ok (.falseV, p1)
          else .error (.err .invalidInput)
      else if b = 44 then
        match Cursor.readLine input p0 with
        | .error e => .error e
        | .ok (line, p1) =>
          if line = ascii "inf" then .ok (.positiveInfinity, p1)
          else if line = ascii "-inf" then .ok (.negativeInfinity, p1)
          else if line = ascii "nan" then .ok (.nan, p1)
          else if rustF64Valid line then .ok (.double line, p1)
          else .error (.err .invalidInput)
      else if b = 40 then
        match Cursor.readString input p0 with
        | .error e => .error e
        | .ok (s, p1) =>
          match s with
          | 43 :: r => if r.all isDigitB then .ok (.bigNumber s, p1) else .error (.err .invalidInput)
          | 45 :: r => if r.all isDigitB then .ok (.bigNumber s, p1) else .error (.err .invalidInput)
          | _ => .error (.err .invalidInput)
      else if b = 33 then
        match Cursor.readInteger input p0 with
        | .error e => .error e
        | .ok (len, p1) =>
          match Cursor.read input p1 (i64ToUsize len) with
          | .error e => .error e
          | .ok (data, p2) =>
            if validUtf8 data then .ok (.bulkError data, p2)
            else .error (.err .invalidInput)
      else if b = 61 then
        match Cursor.readInteger input p0 with
        | .error e => .error e
        | .ok (len, p1) =>
          match Cursor.read input p1 (i64ToUsize len) with
          | .error e => .error e
          | .ok (data, p2) =>
            if data.length ≤ 3 then .error .crash   -- `data[3]` out of bounds
            else if data.getD 3 0 ≠ 58 then .error (.err .invalidInput)
            else if ¬ validUtf8 (data.take 3) then .error (.err .invalidInput)
            else if ¬ validUtf8 (data.drop 4) then .error (.err .invalidInput)
            else .ok (.verbatimString (data.take 3) (data.drop 4), p2)
      else if b = 37 then
        match Cursor.readInteger input p0 with
        | .error e => .error e
        | .ok (len, p1) =>
          match parsePairs fuel input p1 len.toNat with
          | .ok (entries, p2) => .ok (.map entries, p2)
          | .error e => .error e
      else if b = 126 then
        match Cursor.readInteger input p0 with
        | .error e => .error e
        | .ok (len, p1) =>
          match parseItems fuel input p1 len.toNat with
          | .ok (items, p2) => .ok (.set items, p2)
          | .error e => .error e
      else .error (.err .invalidInput)
termination_by structural fuel => fuel

/-- The `(0..len).map(|_| parse_value(cursor))` element loop of the `*`/`~`
branches (an `i64` range is empty for nonpositive `len`, hence the `Nat`
count `len.toNat`). -/
def parseItems : Nat → List Nat → Nat → Nat → Except PErr (List RespValue × Nat)
  | 0, _, _, _ => .error .outOfFuel
  | _ + 1, _, pos, 0 => .ok ([], pos)
  | fuel + 1, input, pos, n + 1 =>
    match parseValue fuel input pos with
    | .error e => .error e
    | .ok (v, p1) =>
      match parseItems fuel input p1 n with
      | .ok (vs, p2) => .ok (v :: vs, p2)
      | .error e => .error e
termination_by structural fuel => fuel

/-- The key/value loop of the `%` branch. -/
def parsePairs : Nat → List Nat → Nat → Nat → Except PErr (List (RespValue × RespValue) × Nat)
  | 0, _, _, _ => .error .outOfFuel
  | _ + 1, _, pos, 0 => .ok ([], pos)
  | fuel + 1, input, pos, n + 1 =>
    match parseValue fuel input pos with
    | .error e => .error e
    | .ok (k, p1) =>
      match parseValue fuel input p1 with
      | .error e => .error e
      | .ok (v, p2) =>
        match parsePairs fuel input p2 n with
        | .ok (entries, p3) => .ok ((k, v) :: entries, p3)
        | .error e => .error e
termination_by structural fuel => fuel

end

/-- `resp.rs::parse`: run `parse_value` on a fresh cursor and discard the
final position.  The fuel `2 * input.length + 1` can never be exhausted:
every nested/sequential parser step follows at least two consumed input
bytes. -/
def parse (input : List Nat) : Except PErr RespValue :=
  match parseValue (2 * input.length + 1) input 0 with
  | .ok (v, _) => .ok v
  | .error e => .error e

/-! ## The command layer (`commands.rs`) -/

/-- `commands.rs::Command`; Rust `String` payloads as UTF-8 byte lists. -/
inductive Command where
  | configGet (key : List Nat)
  | echo (msg : List Nat)
  | get (key : List Nat)
  | ping
  | set (key value : List Nat) (expiry : Option Nat)
  deriving DecidableEq, Repr

/-- Errors out of `Command::from_bytes`: a propagated `cursor::Error`, or a
panic (`crash`). -/
inductive FbError where
  | codec (e : CursorError)
  | crash
  deriving DecidableEq, Repr

/-- Rust `str::to_ascii_uppercase` on the UTF-8 bytes (non-ASCII bytes are
untouched, exactly as in Rust). -/
def upperAscii (l : List Nat) : List Nat :=
  l.map fun b => if 97 ≤ b && b ≤ 122 then b - 32 else b

/-- Every explicit error return in `from_bytes` builds
`RespError::InvalidInput(String::from_utf8(bytes.to_vec()).unwrap())`:
`InvalidInput` when the request bytes are valid UTF-8, and a panic from the
`unwrap` otherwise. -/
def mkInvalid (bytes : List Nat) : Except FbError Command :=
  if validUtf8 bytes then .error (.codec .invalidInput) else .error .crash

/-- The `arr[3..].chunks(2)` option scan of the `SET` arm.  A `PX` option
value that fails `val.parse::<u64>()` hits `.unwrap()` — a panic.  A final
odd chunk of one element matches no pattern and is skipped, as are chunks
that are not two bulk strings or whose option name is not `PX`. -/
def pxLoop : List RespValue → Option Nat → Except FbError (Option Nat)
  | .bulkString opt :: .bulkString val :: rest, acc =>
    if upperAscii opt = ascii "PX" then
      match parseU64 val with
      | some n => pxLoop rest (some n)
      | none => .error .crash
    else pxLoop rest acc
  | _ :: _ :: rest, acc => pxLoop rest acc
  | _, acc => .ok acc

/-- `Command::from_bytes`.  Note that `parse(bytes)?` propagates the codec
error unchanged (it is not converted to `InvalidInput`), and that the `PING`
arm has no arity check. -/
def fromBytes (bytes : List Nat) : Except FbError Command :=
  match parse bytes with
  | .error (.err e) => .error (.codec e)
  | .error .crash => .error .crash
  | .error .outOfFuel => .error .crash
  | .ok v =>
    match v with
    | .array arr =>
      match arr with
      | [] => mkInvalid bytes
      | v0 :: _ =>
        match v0 with
        | .bulkString cmd =>
          if upperAscii cmd = ascii "CONFIG" then
            match arr with
            | _ :: .bulkString subcmd :: v2 :: rest =>
              if upperAscii subcmd = ascii "GET" then
                match rest with
                | [] =>
                  match v2 with
                  | .bulkString key => .ok (.configGet key)
                  | _ => mkInvalid bytes
                | _ => mkInvalid bytes
              else mkInvalid bytes
            | _ => mkInvalid bytes
          else if upperAscii cmd = ascii "ECHO" then
            match arr with
            | [_, .bulkString msg] => .ok (.echo msg)
            | _ => mkInvalid bytes
          else if upperAscii cmd = ascii "GET" then
            match arr with
            | [_, .bulkString key] => .ok (.get key)
            | _ => mkInvalid bytes
          else if upperAscii cmd = ascii "PING" then .ok .ping
          else if upperAscii cmd = ascii "SET" then
            match arr with
            | _ :: .bulkString key :: .bulkString value :: rest =>
              match pxLoop rest none with
              | .ok expiry => .ok (.set key value expiry)
              | .error e => .error e
            | _ => mkInvalid bytes
          else mkInvalid bytes
        | _ => mkInvalid bytes
    | _ => mkInvalid bytes

/-- The reply value `main.rs` builds for the pure commands (the others
consult the store or the configuration). -/
def replyFor : Command → Option RespValue
  | .ping => some (.simpleString (ascii "PONG"))
  | .echo msg => some (.bulkString msg)
  | _ => none

/-! ## The key-value store (`kv.rs`) -/

/-- The shared state of `kv.rs`: the `KV` mapping (a `HashMap`, modelled
extensionally) and the `CRON` expiration ledger, an ordered vector of
(key, absolute expiry instant) records.  Instants are naturals
(milliseconds). -/
structure KvState where
  kv : String → Option String
  cron : List (String × Nat)

/-- `kv.rs::set`: unconditionally insert/overwrite the mapping entry; when an
expiry is given, push one (key, now + expiry) record onto the ledger. -/
def KvState.set (st : KvState) (key value : String) (expiry : Option Nat) (now : Nat) :
    KvState where
  kv := fun k => if k = key then some value else st.kv k
  cron :=
    match expiry with
    | none => st.cron
    | some e => st.cron ++ [(key, now + e)]

/-- One sweeper tick from `kv.rs::init`: `cron.retain(|(key, expiry)| ...)`,
removing `key` from the mapping and dropping the record when
`now >= expiry`, keeping the record otherwise.  `retain` scans records in
order; the fold keeps the retained records in order (reversed accumulator). -/
def KvState.tick (st : KvState) (now : Nat) : KvState :=
  let res :=
    st.cron.foldl
      (fun (acc : (String → Option String) × List (String × Nat)) r =>
        if r.2 ≤ now then (fun k => if k = r.1 then none else acc.1 k, acc.2)
        else (acc.1, r :: acc.2))
      (st.kv, [])
  ⟨res.1, res.2.reverse⟩

/-! ## Well-formedness of values (for the round-trip laws) -/

/-- No `\r\n` pair occurs inside the list (a later `\r\n` terminator appended
after the list is still found first, since the byte before it is not `\n`). -/
def noCRLF : List Nat → Bool
  | [] => true
  | [_] => true
  | a :: b :: t => !(a == 13 && b == 10) && noCRLF (b :: t)

mutual

/-- Payload well-formedness, the exact conditions under which the encoder's
output is acceptable to the decoder: line-framed texts are valid UTF-8 and
contain no `\r\n`; a big number is a sign followed by digits; the verbatim
encoding tag has exactly 3 bytes; a double's text is a parseable float other
than the three literal non-finite forms (Rust `Display` output for a finite
`f64` always satisfies this); integers are within `i64`, and every
length/count that the encoder renders re-parses as a nonnegative `i64`. -/
def WF : RespValue → Bool
  | .array vs => decide (vs.length < 2 ^ 63) && WFList vs
  | .bigNumber s =>
    match s with
    | 43 :: r => r.all isDigitB
    | 45 :: r => r.all isDigitB
    | _ => false
  | .bulkError s => validUtf8 s && decide (s.length < 2 ^ 63)
  | .bulkString s => validUtf8 s && decide (s.length < 2 ^ 63)
  | .double repr =>
    noCRLF repr && rustF64Valid repr &&
      decide (repr ≠ ascii "inf") && decide (repr ≠ ascii "-inf") && decide (repr ≠ ascii "nan")
  | .error s => validUtf8 s && noCRLF s
  | .falseV => true
  | .integer n => decide (-(2 ^ 63) ≤ n) && decide (n ≤ i64Max)
  | .map entries => decide (entries.length < 2 ^ 63) && WFPairs entries
  | .nan => true
  | .negativeInfinity => true
  | .null => true
  | .nullBulkString => true
  | .positiveInfinity => true
  | .set vs => decide (vs.length < 2 ^ 63) && WFList vs
  | .simpleString s => validUtf8 s && noCRLF s
  | .trueV => true
  | .verbatimString encoding s =>
    decide (encoding.length = 3) && validUtf8 encoding && validUtf8 s &&
      decide (encoding.length + s.length + 1 < 2 ^ 63)

def WFList : List RespValue → Bool
  | [] => true
  | v :: vs => WF v && WFList vs

def WFPairs : List (RespValue × RespValue) → Bool
  | [] => true
  | (k, v) :: rest => WF k && WF v && WFPairs rest

end

/-- Does decoding this value's encoding leave its final `\r\n` (for booleans,
the line terminator) unconsumed?  The `#`, `!` and `=` decoder branches never
read past their payload, so such a value parses back only when nothing must
be parsed after it. -/
def leavesTrailer : RespValue → Bool
  | .bulkError _ => true
  | .verbatimString _ _ => true
  | .trueV => true
  | .falseV => true
  | _ => false

mutual

/-- The value and everything inside it fully consumes its encoding — no
`leavesTrailer` kind occurs anywhere. -/
def Composable : RespValue → Bool
  | .array vs => ComposableList vs
  | .map entries => ComposablePairs entries
  | .set vs => ComposableList vs
  | .bulkError _ => false
  | .verbatimString _ _ => false
  | .trueV => false
  | .falseV => false
  | _ => true

def ComposableList : List RespValue → Bool
  | [] => true
  | v :: vs => Composable v && ComposableList vs

def ComposablePairs : List (RespValue × RespValue) → Bool
  | [] => true
  | (k, v) :: rest => Composable k && Composable v && ComposablePairs rest

end

/-! # Theorems -/

/-! ## The key-value store -/

/-- The retain fold of a sweeper tick, characterised: the surviving ledger is
the in-order filter of the not-yet-due records (reversed, prepended to the
accumulator), and a key is erased exactly when some scanned record for it is
due. -/
theorem tick_foldl_spec (now : Nat) (cron : List (String × Nat)) :
    ∀ (kv0 : String → Option String) (acc : List (String × Nat)),
      (cron.foldl
          (fun (a : (String → Option String) × List (String × Nat)) r =>
            if r.2 ≤ now then (fun k => if k = r.1 then none else a.1 k, a.2)
            else (a.1, r :: a.2))
          (kv0, acc)).2
        = (cron.filter (fun r => decide (now < r.2))).reverse ++ acc ∧
      ∀ k,
        (cron.foldl
            (fun (a : (String → Option String) × List (String × Nat)) r =>
              if r.2 ≤ now then (fun k => if k = r.1 then none else a.1 k, a.2)
              else (a.1, r :: a.2))
            (kv0, acc)).1 k
          = if cron.any (fun r => r.1 == k && decide (r.2 ≤ now)) then none else kv0 k := by
  induction cron with
  | nil => intro kv0 acc; simp
  | cons r rest ih =>
    intro kv0 acc
    by_cases hr : r.2 ≤ now
    · simp only [List.foldl_cons, if_pos hr]
      refine ⟨?_, ?_⟩
      · rw [(ih _ _).1]
        have hlt : ¬ (now < r.2) := by omega
        simp [List.filter_cons, hlt]
      · intro k
        rw [(ih _ _).2 k, List.any_cons]
        by_cases hk : k = r.1
        · subst hk
          have hd : decide (r.2 ≤ now) = true := by simp [hr]
          rw [beq_self_eq_true, hd]
          cases hany : rest.any (fun x => x.1 == r.1 && decide (x.2 ≤ now)) <;> simp [hany]
        · have h1 : (r.1 == k) = false := beq_eq_false_iff_ne.mpr fun h => hk h.symm
          rw [h1]
          simp only [Bool.false_and, Bool.false_or]
          rw [if_neg hk]
    · simp only [List.foldl_cons, if_neg hr]
      refine ⟨?_, ?_⟩
      · rw [(ih _ _).1]
        have hlt : now < r.2 := by omega
        simp [List.filter_cons, hlt]
      · intro k
        rw [(ih _ _).2 k, List.any_cons]
        have hd : decide (r.2 ≤ now) = false := by simp [hr]
        rw [hd]
        simp only [Bool.and_false, Bool.false_or]

/-- C6: a single sweeper tick evicts from the mapping exactly the keys having
at least one due ledger record (`expiry ≤ now`), drops exactly the due
records from the ledger, and keeps every not-yet-due record (in order) and
every other mapping entry unchanged. -/
theorem kv_tick_spec (st : KvState) (now : Nat) :
    (st.tick now).cron = st.cron.filter (fun r => decide (now < r.2)) ∧
    ∀ k, (st.tick now).kv k =
      if st.cron.any (fun r => r.1 == k && decide (r.2 ≤ now)) then none
      else st.kv k := by
  unfold KvState.tick
  refine ⟨?_, ?_⟩
  · simp only [(tick_foldl_spec now st.cron st.kv []).1]
    simp
  · intro k
    simp only [(tick_foldl_spec now st.cron st.kv []).2 k]

/-- C7: `set` changes the mapping only at `key`; with no expiry the ledger is
untouched, with an expiry exactly one record `(key, now + expiry)` is
appended at the end, and pre-existing ledger records are never removed or
modified. -/
theorem kv_set_spec (st : KvState) (key value : String) (now : Nat) :
    (∀ expiry k,
      (st.set key value expiry now).kv k = if k = key then some value else st.kv k) ∧
    (st.set key value none now).cron = st.cron ∧
    ∀ e, (st.set key value (some e) now).cron = st.cron ++ [(key, now + e)] :=
  ⟨fun _ _ => rfl, rfl, fun _ => rfl⟩

/-! ## Literal request/reply pairs -/

/-- C9: the literal request `*1\r\n$4\r\nPING\r\n` interprets to `Ping`,
whose reply `SimpleString("PONG")` encodes to `+PONG\r\n`; the literal
request `*2\r\n$4\r\nECHO\r\n$5\r\nHello\r\n` interprets to `Echo("Hello")`,
whose reply `BulkString("Hello")` encodes to `$5\r\nHello\r\n`. -/
theorem ping_echo_literal_replies :
    fromBytes (ascii "*1\r\n$4\r\nPING\r\n") = .ok .ping ∧
    replyFor .ping = some (.simpleString (ascii "PONG")) ∧
    (RespValue.simpleString (ascii "PONG")).asBytes = ascii "+PONG\r\n" ∧
    fromBytes (ascii "*2\r\n$4\r\nECHO\r\n$5\r\nHello\r\n") = .ok (.echo (ascii "Hello")) ∧
    replyFor (.echo (ascii "Hello")) = some (.bulkString (ascii "Hello")) ∧
    (RespValue.bulkString (ascii "Hello")).asBytes = ascii "$5\r\nHello\r\n" :=
  ⟨rfl, rfl, rfl, rfl, rfl, rfl⟩

/-! ## The command layer: PING arity (C8) -/

/-- C8 counterexample: a request whose array has two elements with first
element the bulk string `PING` still interprets to `Ping` — it is not an
`InvalidInput` error, contradicting the claim that any additional element
yields one. -/
theorem ping_extra_args_cx :
    parse (ascii "*2\r\n$4\r\nPING\r\n$1\r\nx\r\n")
      = .ok (.array [.bulkString (ascii "PING"), .bulkString (ascii "x")]) ∧
    fromBytes (ascii "*2\r\n$4\r\nPING\r\n$1\r\nx\r\n") = .ok .ping ∧
    (Except.ok Command.ping : Except FbError Command) ≠ .error (.codec .invalidInput) :=
  ⟨rfl, rfl, fun h => nomatch h⟩

/-- C8 amended: whenever the request decodes to an array whose first element
is a bulk string matching `PING` case-insensitively, `from_bytes` returns
`Ping` regardless of how many further elements the array has — the `PING`
arm performs no arity check and extra elements are ignored. -/
theorem fromBytes_ping_ignores_arity (bytes cmd : List Nat) (rest : List RespValue)
    (hp : parse bytes = .ok (.array (.bulkString cmd :: rest)))
    (hc : upperAscii cmd = ascii "PING") :
    fromBytes bytes = .ok .ping := by
  unfold fromBytes
  rw [hp]
  have h1 : ¬ upperAscii cmd = ascii "CONFIG" := by rw [hc]; decide
  have h2 : ¬ upperAscii cmd = ascii "ECHO" := by rw [hc]; decide
  have h3 : ¬ upperAscii cmd = ascii "GET" := by rw [hc]; decide
  simp only [if_neg h1, if_neg h2, if_neg h3, if_pos hc]

/-- C8 witness: the amended theorem applied to the two-element `PING`
request. -/
theorem fromBytes_ping_ignores_arity_witness :
    fromBytes (ascii "*2\r\n$4\r\nPING\r\n$1\r\nx\r\n") = .ok .ping :=
  fromBytes_ping_ignores_arity _ (ascii "PING") [.bulkString (ascii "x")] rfl rfl

/-! ## The command layer: failure taxonomy (C1) -/

/-- Either branch of an explicit `from_bytes` error return: `InvalidInput`
when the request bytes are valid UTF-8, else the `unwrap` panic. -/
theorem mkInvalid_cases (bytes : List Nat) :
    (validUtf8 bytes = true ∧ mkInvalid bytes = .error (.codec .invalidInput)) ∨
    (validUtf8 bytes = false ∧ mkInvalid bytes = .error .crash) := by
  unfold mkInvalid
  by_cases h : validUtf8 bytes = true
  · exact .inl ⟨h, by rw [if_pos h]⟩
  · refine .inr ⟨by simpa using h, by rw [if_neg h]⟩

/-- Bounded-length version of `pxLoop_error`, inducting on the length bound
(the scan steps two elements at a time). -/
theorem pxLoop_error_aux (n : Nat) :
    ∀ (l : List RespValue), l.length ≤ n → ∀ (acc : Option Nat) (e : FbError),
      pxLoop l acc = .error e → e = .crash := by
  induction n with
  | zero =>
    intro l hl acc e h
    rcases l with _ | ⟨a, t⟩
    · simp [pxLoop] at h
    · simp at hl
  | succ n ih =>
    intro l hl acc e h
    unfold pxLoop at h
    split at h
    · split at h
      · split at h
        · refine ih _ ?_ _ e h
          simp at hl
          omega
        · simp at h
          exact h.symm
      · refine ih _ ?_ _ e h
        simp at hl
        omega
    · refine ih _ ?_ _ e h
      simp at hl
      omega
    · simp at h

/-- The only error the `PX` option scan can produce is the `unwrap` panic. -/
theorem pxLoop_error (l : List RespValue) (acc : Option Nat) (e : FbError)
    (h : pxLoop l acc = .error e) : e = .crash :=
  pxLoop_error_aux l.length l le_rfl acc e h

/-- C1 counterexample: on the empty input the decode fails with
`UnexpectedEOF` and `from_bytes` returns exactly that error — not
`InvalidInput` — so not every failure surfaces as `InvalidInput`. -/
theorem fromBytes_empty_cx :
    parse ([] : List Nat) = .error (.err .unexpectedEOF) ∧
    fromBytes [] = .error (.codec .unexpectedEOF) ∧
    (Except.error (FbError.codec .unexpectedEOF) : Except FbError Command)
      ≠ .error (.codec .invalidInput) :=
  ⟨rfl, rfl, fun h => by cases h⟩

set_option maxHeartbeats 1000000 in
/-- C1 amended: `from_bytes` is total, but its failures split into exactly
these kinds: (i) a decode failure is propagated unchanged (`InvalidInput`
stays `InvalidInput`, truncation surfaces as `UnexpectedEOF`, a decoder
panic stays a panic); (ii) after a successful decode, every shape, verb,
arity or option failure yields `InvalidInput` when the request bytes are
valid UTF-8 and panics otherwise (the diagnostic construction unwraps a
UTF-8 conversion of the raw bytes); (iii) additionally, a `SET` whose `PX`
option value does not parse as a `u64` panics. -/
theorem fromBytes_failure_taxonomy (bytes : List Nat) :
    (∀ e, parse bytes = .error (.err e) → fromBytes bytes = .error (.codec e)) ∧
    (parse bytes = .error .crash → fromBytes bytes = .error .crash) ∧
    (∀ v, parse bytes = .ok v →
      (∃ c, fromBytes bytes = .ok c) ∨
      (validUtf8 bytes = true ∧ fromBytes bytes = .error (.codec .invalidInput)) ∨
      (validUtf8 bytes = false ∧ fromBytes bytes = .error .crash) ∨
      (fromBytes bytes = .error .crash ∧
        ∃ cmd key value rest,
          v = .array (.bulkString cmd :: .bulkString key :: .bulkString value :: rest) ∧
          upperAscii cmd = ascii "SET" ∧ pxLoop rest none = .error .crash)) := by
  refine ⟨fun e he => by unfold fromBytes; rw [he], fun hc => by unfold fromBytes; rw [hc], ?_⟩
  intro v hv
  have hinv : fromBytes bytes = mkInvalid bytes →
      (∃ c, fromBytes bytes = .ok c) ∨
      (validUtf8 bytes = true ∧ fromBytes bytes = .error (.codec .invalidInput)) ∨
      (validUtf8 bytes = false ∧ fromBytes bytes = .error .crash) ∨
      (fromBytes bytes = .error .crash ∧
        ∃ cmd key value rest,
          v = .array (.bulkString cmd :: .bulkString key :: .bulkString value :: rest) ∧
          upperAscii cmd = ascii "SET" ∧ pxLoop rest none = .error .crash) := by
    intro hfb
    rcases mkInvalid_cases bytes with ⟨h1, h2⟩ | ⟨h1, h2⟩
    · exact .inr (.inl ⟨h1, hfb.trans h2⟩)
    · exact .inr (.inr (.inl ⟨h1, hfb.trans h2⟩))
  rcases v with arr|_|_|_|_|_|_|_|_|_|_|_|_|_|_|_|_|_ <;>
    try (refine hinv ?_; unfold fromBytes; rw [hv]; done)
  rcases arr with _ | ⟨v0, rest0⟩
  · refine hinv ?_; unfold fromBytes; rw [hv]
  · rcases v0 with _|_|_|cmd|_|_|_|_|_|_|_|_|_|_|_|_|_|_ <;>
      try (refine hinv ?_; unfold fromBytes; rw [hv]; done)
    by_cases h1 : upperAscii cmd = ascii "CONFIG"
    · rcases rest0 with _ | ⟨v1, rest1⟩
      · refine hinv ?_
        unfold fromBytes; rw [hv]
        first | rfl | ((try dsimp only); split <;> simp_all +decide)
      · rcases rest1 with _ | ⟨v2, rest2⟩
        · refine hinv ?_
          unfold fromBytes; rw [hv]
          first | rfl | ((try dsimp only); split <;> simp_all +decide)
        · rcases v1 with _|_|_|subcmd|_|_|_|_|_|_|_|_|_|_|_|_|_|_ <;>
            try (refine hinv ?_; unfold fromBytes; rw [hv]
                 first | rfl | ((try dsimp only); split <;> simp_all +decide)
                 done)
          by_cases h2 : upperAscii subcmd = ascii "GET"
          · rcases rest2 with _ | ⟨v3, rest3⟩
            · rcases v2 with _|_|_|key|_|_|_|_|_|_|_|_|_|_|_|_|_|_ <;>
                try (refine hinv ?_; unfold fromBytes; rw [hv]
                     first | rfl | ((try dsimp only); split <;> simp_all +decide)
                     done)
              refine .inl ⟨.configGet key, ?_⟩
              unfold fromBytes; rw [hv]
              first | rfl | ((try dsimp only); split <;> simp_all +decide)
            · refine hinv ?_
              unfold fromBytes; rw [hv]
              first | rfl | ((try dsimp only); split <;> simp_all +decide)
          · refine hinv ?_
            unfold fromBytes; rw [hv]
            first | rfl | ((try dsimp only); split <;> simp_all +decide)
    · by_cases h2 : upperAscii cmd = ascii "ECHO"
      · rcases rest0 with _ | ⟨v1, rest1⟩
        · refine hinv ?_
          unfold fromBytes; rw [hv]
          first | rfl | ((try dsimp only); split <;> simp_all +decide)
        · rcases rest1 with _ | ⟨v2, rest2⟩
          · rcases v1 with _|_|_|msg|_|_|_|_|_|_|_|_|_|_|_|_|_|_ <;>
              try (refine hinv ?_; unfold fromBytes; rw [hv]
                   first | rfl | ((try dsimp only); split <;> simp_all +decide)
                   done)
            refine .inl ⟨.echo msg, ?_⟩
            unfold fromBytes; rw [hv]
            first | rfl | ((try dsimp only); split <;> simp_all +decide)
          · refine hinv ?_
            unfold fromBytes; rw [hv]
            first | rfl | ((try dsimp only); split <;> simp_all +decide)
      · by_cases h3 : upperAscii cmd = ascii "GET"
        · rcases rest0 with _ | ⟨v1, rest1⟩
          · refine hinv ?_
            unfold fromBytes; rw [hv]
            first | rfl | ((try dsimp only); split <;> simp_all +decide)
          · rcases rest1 with _ | ⟨v2, rest2⟩
            · rcases v1 with _|_|_|key|_|_|_|_|_|_|_|_|_|_|_|_|_|_ <;>
                try (refine hinv ?_; unfold fromBytes; rw [hv]
                     first | rfl | ((try dsimp only); split <;> simp_all +decide)
                     done)
              refine .inl ⟨.get key, ?_⟩
              unfold fromBytes; rw [hv]
              first | rfl | ((try dsimp only); split <;> simp_all +decide)
            · refine hinv ?_
              unfold fromBytes; rw [hv]
              first | rfl | ((try dsimp only); split <;> simp_all +decide)
        · by_cases h4 : upperAscii cmd = ascii "PING"
          · refine .inl ⟨.ping, ?_⟩
            unfold fromBytes; rw [hv]
            first | rfl | ((try dsimp only); split <;> simp_all +decide)
          · by_cases h5 : upperAscii cmd = ascii "SET"
            · rcases rest0 with _ | ⟨v1, rest1⟩
              · refine hinv ?_
                unfold fromBytes; rw [hv]
                first | rfl | ((try dsimp only); split <;> simp_all +decide)
              · rcases rest1 with _ | ⟨v2, rest2⟩
                · refine hinv ?_
                  unfold fromBytes; rw [hv]
                  first | rfl | ((try dsimp only); split <;> simp_all +decide)
                · rcases v1 with _|_|_|key|_|_|_|_|_|_|_|_|_|_|_|_|_|_ <;>
                    try (refine hinv ?_; unfold fromBytes; rw [hv]
                         first | rfl | ((try dsimp only); split <;> simp_all +decide)
                         done)
                  rcases v2 with _|_|_|value|_|_|_|_|_|_|_|_|_|_|_|_|_|_ <;>
                    try (refine hinv ?_; unfold fromBytes; rw [hv]
                         first | rfl | ((try dsimp only); split <;> simp_all +decide)
                         done)
                  cases hpx : pxLoop rest2 none with
                  | ok expiry =>
                    refine .inl ⟨.set key value expiry, ?_⟩
                    unfold fromBytes; rw [hv]
                    first | rfl | ((try dsimp only); split <;> simp_all +decide)
                  | error e =>
                    have he : e = .crash := pxLoop_error _ _ _ hpx
                    subst he
                    refine .inr (.inr (.inr ⟨?_, cmd, key, value, rest2, rfl, h5, hpx⟩))
                    unfold fromBytes; rw [hv]
                    first | rfl | ((try dsimp only); split <;> simp_all +decide)
            · refine hinv ?_
              unfold fromBytes; rw [hv]
              first | rfl | ((try dsimp only); split <;> simp_all +decide)

/-- C1 witness: the taxonomy applied to concrete requests — the empty
request (decode failure propagated as `UnexpectedEOF`) and an unknown verb
over valid UTF-8 bytes (`InvalidInput`). -/
theorem fromBytes_failure_taxonomy_witness :
    fromBytes [] = .error (.codec .unexpectedEOF) ∧
    ((∃ c, fromBytes (ascii "*1\r\n$7\r\nINVALID\r\n") = .ok c) ∨
      (validUtf8 (ascii "*1\r\n$7\r\nINVALID\r\n") = true ∧
        fromBytes (ascii "*1\r\n$7\r\nINVALID\r\n") = .error (.codec .invalidInput)) ∨
      (validUtf8 (ascii "*1\r\n$7\r\nINVALID\r\n") = false ∧
        fromBytes (ascii "*1\r\n$7\r\nINVALID\r\n") = .error .crash) ∨
      (fromBytes (ascii "*1\r\n$7\r\nINVALID\r\n") = .error .crash ∧
        ∃ cmd key value rest,
          RespValue.array [.bulkString (ascii "INVALID")]
            = .array (.bulkString cmd :: .bulkString key :: .bulkString value :: rest) ∧
          upperAscii cmd = ascii "SET" ∧ pxLoop rest none = .error .crash)) :=
  ⟨(fromBytes_failure_taxonomy []).1 .unexpectedEOF rfl,
    (fromBytes_failure_taxonomy (ascii "*1\r\n$7\r\nINVALID\r\n")).2.2
      (.array [.bulkString (ascii "INVALID")]) rfl⟩

/-! ## The verbatim-string branch (C4) -/

/-- C4 counterexample: `=2\r\nab\r\n` reads length 2 and payload `ab`; the
payload is shorter than 4 bytes, and the parser panics on `data[3]` (an index
out of bounds) instead of returning `InvalidInput`. -/
theorem verbatim_short_payload_cx :
    parse (ascii "=2\r\nab\r\n") = .error .crash ∧
    PErr.crash ≠ .err .invalidInput :=
  ⟨rfl, by decide⟩

/-- C4 amended: in the `=` branch, once the declared length and exactly that
many payload bytes have been read, a payload of at least 4 bytes whose byte
at offset 3 is not `:` yields `InvalidInput`, but a payload shorter than 4
bytes panics on the `data[3]` index instead. -/
theorem verbatim_offset3_check (fuel : Nat) (input : List Nat) (pos p1 p2 : Nat)
    (len : Int) (data : List Nat)
    (hb : Cursor.readByte input pos = .ok (61, pos + 1))
    (hi : Cursor.readInteger input (pos + 1) = .ok (len, p1))
    (hr : Cursor.read input p1 (i64ToUsize len) = .ok (data, p2))
    (hcolon : ¬ (3 < data.length ∧ data.getD 3 0 = 58)) :
    parseValue (fuel + 1) input pos =
      .error (if data.length ≤ 3 then PErr.crash else .err .invalidInput) := by
  unfold parseValue
  rw [hb]
  norm_num
  rw [hi]
  dsimp only
  rw [hr]
  dsimp only
  by_cases hlen : data.length ≤ 3
  · rw [if_pos hlen, if_pos hlen]
  · rw [if_neg hlen, if_neg hlen]
    have hne : data.getD 3 0 ≠ 58 := by
      push_neg at hcolon
      exact hcolon (by omega)
    simp at hne
    simp [hne]

/-- C4 witness: the amended branch theorem applied to the concrete request
`=2\r\nab\r\n` (declared length 2, payload `ab`, shorter than 4 bytes —
outcome is the crash). -/
theorem verbatim_offset3_check_witness :
    parseValue 17 (ascii "=2\r\nab\r\n") 0 = .error .crash := by
  have h := verbatim_offset3_check 16 (ascii "=2\r\nab\r\n") 0 4 6 2 (ascii "ab")
    rfl rfl rfl (by decide)
  simpa using h

/-! ## `Cursor::read_line` (C5) -/

/-- The scanning loop reports `UnexpectedEOF` when no terminator pair starts
strictly below `input.length - 1` at or after the scan position (fuel
irrelevant: exhaustion yields the same error). -/
theorem readLineGo_none (input : List Nat) (start : Nat) (fuel : Nat) :
    ∀ p, (∀ j, p ≤ j → j < input.length - 1 →
        ¬(input.getD j 0 = 13 ∧ input.getD (j + 1) 0 = 10)) →
      Cursor.readLineGo input start fuel p = .error (.err .unexpectedEOF) := by
  induction fuel with
  | zero => intro p _; rfl
  | succ fuel ih =>
    intro p h
    unfold Cursor.readLineGo
    by_cases hp : p < input.length - 1
    · rw [if_pos hp, if_neg (h p le_rfl hp)]
      exact ih (p + 1) fun j hj hjl => h j (by omega) hjl
    · rw [if_neg hp]

/-- The scanning loop finds the first terminator pair: if `i` is a CR LF
position at or after `p`, below `input.length - 1`, with no earlier pair in
`[p, i)`, and the fuel covers the distance, the loop returns the slice
`[start, i)` and the position `i + 2`. -/
theorem readLineGo_found (input : List Nat) (start : Nat) (fuel : Nat) :
    ∀ p i, p ≤ i → i < input.length - 1 →
      input.getD i 0 = 13 → input.getD (i + 1) 0 = 10 →
      (∀ j, p ≤ j → j < i → ¬(input.getD j 0 = 13 ∧ input.getD (j + 1) 0 = 10)) →
      i - p < fuel →
      Cursor.readLineGo input start fuel p
        = .ok ((input.drop start).take (i - start), i + 2) := by
  induction fuel with
  | zero => intro p i _ _ _ _ _ hfuel; omega
  | succ fuel ih =>
    intro p i hpi hilen hcr hlf hmin hfuel
    unfold Cursor.readLineGo
    by_cases hpeq : p = i
    · subst hpeq
      rw [if_pos hilen, if_pos ⟨hcr, hlf⟩]
    · rw [if_pos (by omega), if_neg (hmin p le_rfl (by omega))]
      exact ih (p + 1) i (by omega) hilen hcr hlf (fun j hj hji => hmin j (by omega) hji)
        (by omega)

/-- C5 counterexample: on the empty buffer `read_line` panics (the loop
bound `input.len() - 1` underflows) instead of failing with
`UnexpectedEnd`. -/
theorem readLine_empty_cx :
    Cursor.readLine [] 0 = .error .crash ∧
    PErr.crash ≠ .err .unexpectedEOF :=
  ⟨rfl, by decide⟩

/-- C5 amended: on every nonempty buffer and any position, `read_line`
returns the bytes strictly before the first CR LF pair at or after the
position and advances just past that pair, and fails with `UnexpectedEnd`
exactly when no CR LF pair (fitting inside the buffer) occurs at or after
the position; on the empty buffer it panics instead (see the
counterexample). -/
theorem readLine_first_terminator (input : List Nat) (pos : Nat) (hne : input ≠ []) :
    (∃ i, pos ≤ i ∧ i + 1 < input.length ∧
      input.getD i 0 = 13 ∧ input.getD (i + 1) 0 = 10 ∧
      (∀ j, pos ≤ j → j < i → ¬(input.getD j 0 = 13 ∧ input.getD (j + 1) 0 = 10)) ∧
      Cursor.readLine input pos = .ok ((input.drop pos).take (i - pos), i + 2)) ∨
    ((∀ j, pos ≤ j → ¬(j + 1 < input.length ∧
        input.getD j 0 = 13 ∧ input.getD (j + 1) 0 = 10)) ∧
      Cursor.readLine input pos = .error (.err .unexpectedEOF)) := by
  have hlen : input.length ≠ 0 := fun h => hne (List.length_eq_zero.mp h)
  by_cases hex : ∃ i, pos ≤ i ∧ i + 1 < input.length ∧
      input.getD i 0 = 13 ∧ input.getD (i + 1) 0 = 10
  · left
    obtain ⟨h1, h2, h3, h4⟩ := Nat.find_spec hex
    refine ⟨Nat.find hex, h1, h2, h3, h4, ?_, ?_⟩
    · intro j hj hji hpair
      exact Nat.find_min hex hji ⟨hj, by omega, hpair.1, hpair.2⟩
    · unfold Cursor.readLine
      rw [if_neg hlen]
      exact readLineGo_found input pos input.length pos (Nat.find hex) h1 (by omega) h3 h4
        (fun j hj hji hpair => Nat.find_min hex hji ⟨hj, by omega, hpair.1, hpair.2⟩)
        (by omega)
  · right
    push_neg at hex
    refine ⟨?_, ?_⟩
    · intro j hj hpair
      exact hex j hj hpair.1 hpair.2.1 hpair.2.2
    · unfold Cursor.readLine
      rw [if_neg hlen]
      exact readLineGo_none input pos input.length pos
        fun j hj hjl hpair => hex j hj (by omega) hpair.1 hpair.2

/-- C5 witness: the characterisation applied to the concrete buffer
`a\r\nb` at position 0 (nonemptiness discharged by evaluation). -/
theorem readLine_first_terminator_witness :
    (∃ i, 0 ≤ i ∧ i + 1 < (ascii "a\r\nb").length ∧
      (ascii "a\r\nb").getD i 0 = 13 ∧ (ascii "a\r\nb").getD (i + 1) 0 = 10 ∧
      (∀ j, 0 ≤ j → j < i →
        ¬((ascii "a\r\nb").getD j 0 = 13 ∧ (ascii "a\r\nb").getD (j + 1) 0 = 10)) ∧
      Cursor.readLine (ascii "a\r\nb") 0
        = .ok (((ascii "a\r\nb").drop 0).take (i - 0), i + 2)) ∨
    ((∀ j, 0 ≤ j → ¬(j + 1 < (ascii "a\r\nb").length ∧
        (ascii "a\r\nb").getD j 0 = 13 ∧ (ascii "a\r\nb").getD (j + 1) 0 = 10)) ∧
      Cursor.readLine (ascii "a\r\nb") 0 = .error (.err .unexpectedEOF)) :=
  readLine_first_terminator (ascii "a\r\nb") 0 (by decide)

/-! ## Locality of the cursor operations

A successful cursor operation never looks at bytes beyond the ones it
consumed (all of which lie inside the buffer), so appending a suffix to the
buffer preserves the result. -/

theorem readByte_append (input t : List Nat) (pos : Nat) (r : Nat × Nat)
    (h : Cursor.readByte input pos = .ok r) :
    Cursor.readByte (input ++ t) pos = .ok r := by
  unfold Cursor.readByte at h ⊢
  split at h
  · rename_i hlt
    rw [dif_pos (by simp only [List.length_append]; omega)]
    simpa [List.getElem_append_left hlt] using h
  · cases h

theorem read_append (input t : List Nat) (pos n : Nat) (r : List Nat × Nat)
    (h : Cursor.read input pos n = .ok r) :
    Cursor.read (input ++ t) pos n = .ok r := by
  unfold Cursor.read at h ⊢
  split at h
  · cases h
  · split at h
    · cases h
    · rename_i hov hle
      rw [if_neg hov, if_neg (by simp only [List.length_append]; omega)]
      have hdrop : (input ++ t).drop pos = input.drop pos ++ t :=
        List.drop_append_of_le_length (by omega)
      have htake : (input.drop pos ++ t).take n = (input.drop pos).take n :=
        List.take_append_of_le_length (by simp; omega)
      rw [hdrop, htake]
      exact h

theorem readLine_append (input t : List Nat) (pos : Nat) (r : List Nat × Nat)
    (h : Cursor.readLine input pos = .ok r) :
    Cursor.readLine (input ++ t) pos = .ok r := by
  have hne : input ≠ [] := by
    rintro rfl
    simp [Cursor.readLine] at h
  have hlen : input.length ≠ 0 := fun h0 => hne (List.length_eq_zero.mp h0)
  rcases readLine_first_terminator input pos hne with
    ⟨i, h1, h2, h3, h4, hmin, heq⟩ | ⟨_, heq⟩
  · rw [heq] at h
    cases h
    unfold Cursor.readLine
    rw [if_neg (by simp only [List.length_append]; omega)]
    have hdrop : (input ++ t).drop pos = input.drop pos ++ t :=
      List.drop_append_of_le_length (by omega)
    have htake : ((input ++ t).drop pos).take (i - pos) = (input.drop pos).take (i - pos) := by
      rw [hdrop]
      exact List.take_append_of_le_length (by simp; omega)
    rw [← htake]
    refine readLineGo_found (input ++ t) pos (input ++ t).length pos i h1
      (by simp only [List.length_append]; omega) ?_ ?_ ?_
      (by simp only [List.length_append]; omega)
    · rw [List.getD_append _ _ _ _ (by omega)]
      exact h3
    · rw [List.getD_append _ _ _ _ (by omega)]
      exact h4
    · intro j hj hji hpair
      refine hmin j hj hji ⟨?_, ?_⟩
      · rw [← List.getD_append _ _ _ _ (show j < input.length by omega)]
        exact hpair.1
      · rw [← List.getD_append _ _ _ _ (show j + 1 < input.length by omega)]
        exact hpair.2
  · rw [heq] at h
    cases h

theorem readString_append (input t : List Nat) (pos : Nat) (r : List Nat × Nat)
    (h : Cursor.readString input pos = .ok r) :
    Cursor.readString (input ++ t) pos = .ok r := by
  unfold Cursor.readString at h ⊢
  cases hl : Cursor.readLine input pos with
  | error e => rw [hl] at h; cases h
  | ok lp =>
    rw [hl] at h
    rw [readLine_append input t pos lp hl]
    exact h

theorem readInteger_append (input t : List Nat) (pos : Nat) (r : Int × Nat)
    (h : Cursor.readInteger input pos = .ok r) :
    Cursor.readInteger (input ++ t) pos = .ok r := by
  unfold Cursor.readInteger at h ⊢
  cases hl : Cursor.readLine input pos with
  | error e => rw [hl] at h; cases h
  | ok lp =>
    rw [hl] at h
    rw [readLine_append input t pos lp hl]
    exact h

/-- A successful parse is stable under both raising the fuel and appending a
suffix to the input: the parser never inspects bytes past the ones it
consumed, and extra fuel is never observed on a successful run.  All three
mutual parsing functions at once, by induction on the fuel. -/
theorem parse_extend (fuel : Nat) :
    (∀ fuel' input t pos v p', fuel ≤ fuel' →
      parseValue fuel input pos = .ok (v, p') →
      parseValue fuel' (input ++ t) pos = .ok (v, p')) ∧
    (∀ fuel' input t pos n vs p', fuel ≤ fuel' →
      parseItems fuel input pos n = .ok (vs, p') →
      parseItems fuel' (input ++ t) pos n = .ok (vs, p')) ∧
    (∀ fuel' input t pos n es p', fuel ≤ fuel' →
      parsePairs fuel input pos n = .ok (es, p') →
      parsePairs fuel' (input ++ t) pos n = .ok (es, p')) := by
  induction fuel with
  | zero =>
    refine ⟨?_, ?_, ?_⟩ <;> intros <;> simp_all [parseValue, parseItems, parsePairs]
  | succ f ih =>
    obtain ⟨ihv, ihi, ihp⟩ := ih
    refine ⟨?_, ?_, ?_⟩
    · intro fuel' input t pos v p' hle h
      obtain ⟨f', rfl⟩ : ∃ f', fuel' = f' + 1 := ⟨fuel' - 1, by omega⟩
      have hff : f ≤ f' := by omega
      unfold parseValue at h ⊢
      cases hb : Cursor.readByte input pos with
      | error e => rw [hb] at h; cases h
      | ok bp =>
        rw [hb] at h
        rw [readByte_append input t pos bp hb]
        obtain ⟨b, p0⟩ := bp
        dsimp only at h ⊢
        by_cases h43 : b = 43
        · simp only [if_pos h43] at h ⊢
          cases hs : Cursor.readString input p0 with
          | error e => rw [hs] at h; cases h
          | ok sp => rw [hs] at h; rw [readString_append input t p0 sp hs]; exact h
        · simp only [if_neg h43] at h ⊢
          by_cases h45 : b = 45
          · simp only [if_pos h45] at h ⊢
            cases hs : Cursor.readString input p0 with
            | error e => rw [hs] at h; cases h
            | ok sp => rw [hs] at h; rw [readString_append input t p0 sp hs]; exact h
          · simp only [if_neg h45] at h ⊢
            by_cases h58 : b = 58
            · simp only [if_pos h58] at h ⊢
              cases hi : Cursor.readInteger input p0 with
              | error e => rw [hi] at h; cases h
              | ok ip => rw [hi] at h; rw [readInteger_append input t p0 ip hi]; exact h
            · simp only [if_neg h58] at h ⊢
              by_cases h36 : b = 36
              · simp only [if_pos h36] at h ⊢
                cases hi : Cursor.readInteger input p0 with
                | error e => rw [hi] at h; cases h
                | ok ip =>
                  rw [hi] at h
                  rw [readInteger_append input t p0 ip hi]
                  obtain ⟨len, p1⟩ := ip
                  dsimp only at h ⊢
                  by_cases hm1 : len = -1
                  · simp only [if_pos hm1] at h ⊢; exact h
                  · simp only [if_neg hm1] at h ⊢
                    cases hr : Cursor.read input p1 (i64ToUsize len) with
                    | error e => rw [hr] at h; cases h
                    | ok dp =>
                      rw [hr] at h
                      rw [read_append input t p1 (i64ToUsize len) dp hr]
                      obtain ⟨data, p2⟩ := dp
                      dsimp only at h ⊢
                      by_cases hu : validUtf8 data = true
                      · simp only [if_pos hu] at h ⊢
                        cases ht : Cursor.read input p2 2 with
                        | error e => rw [ht] at h; cases h
                        | ok tp =>
                          rw [ht] at h
                          rw [read_append input t p2 2 tp ht]
                          exact h
                      · simp only [if_neg hu] at h ⊢; exact h
              · simp only [if_neg h36] at h ⊢
                by_cases h42 : b = 42
                · simp only [if_pos h42] at h ⊢
                  cases hi : Cursor.readInteger input p0 with
                  | error e => rw [hi] at h; cases h
                  | ok ip =>
                    rw [hi] at h
                    rw [readInteger_append input t p0 ip hi]
                    obtain ⟨len, p1⟩ := ip
                    dsimp only at h ⊢
                    by_cases hm1 : len = -1
                    · simp only [if_pos hm1] at h ⊢; exact h
                    · simp only [if_neg hm1] at h ⊢
                      cases hit : parseItems f input p1 len.toNat with
                      | error e => rw [hit] at h; cases h
                      | ok vp =>
                        rw [hit] at h
                        rw [ihi f' input t p1 len.toNat vp.1 vp.2 hff hit]
                        exact h
                · simp only [if_neg h42] at h ⊢
                  by_cases h95 : b = 95
                  · simp only [if_pos h95] at h ⊢
                    cases hr : Cursor.read input p0 2 with
                    | error e => rw [hr] at h; cases h
                    | ok tp => rw [hr] at h; rw [read_append input t p0 2 tp hr]; exact h
                  · simp only [if_neg h95] at h ⊢
                    by_cases h35 : b = 35
                    · simp only [if_pos h35] at h ⊢
                      cases hc : Cursor.readByte input p0 with
                      | error e => rw [hc] at h; cases h
                      | ok cp => rw [hc] at h; rw [readByte_append input t p0 cp hc]; exact h
                    · simp only [if_neg h35] at h ⊢
                      by_cases h44 : b = 44
                      · simp only [if_pos h44] at h ⊢
                        cases hl : Cursor.readLine input p0 with
                        | error e => rw [hl] at h; cases h
                        | ok lp => rw [hl] at h; rw [readLine_append input t p0 lp hl]; exact h
                      · simp only [if_neg h44] at h ⊢
                        by_cases h40 : b = 40
                        · simp only [if_pos h40] at h ⊢
                          cases hs : Cursor.readString input p0 with
                          | error e => rw [hs] at h; cases h
                          | ok sp =>
                            rw [hs] at h
                            rw [readString_append input t p0 sp hs]
                            exact h
                        · simp only [if_neg h40] at h ⊢
                          by_cases h33 : b = 33
                          · simp only [if_pos h33] at h ⊢
                            cases hi : Cursor.readInteger input p0 with
                            | error e => rw [hi] at h; cases h
                            | ok ip =>
                              rw [hi] at h
                              rw [readInteger_append input t p0 ip hi]
                              obtain ⟨len, p1⟩ := ip
                              dsimp only at h ⊢
                              cases hr : Cursor.read input p1 (i64ToUsize len) with
                              | error e => rw [hr] at h; cases h
                              | ok dp =>
                                rw [hr] at h
                                rw [read_append input t p1 (i64ToUsize len) dp hr]
                                exact h
                          · simp only [if_neg h33] at h ⊢
                            by_cases h61 : b = 61
                            · simp only [if_pos h61] at h ⊢
                              cases hi : Cursor.readInteger input p0 with
                              | error e => rw [hi] at h; cases h
                              | ok ip =>
                                rw [hi] at h
                                rw [readInteger_append input t p0 ip hi]
                                obtain ⟨len, p1⟩ := ip
                                dsimp only at h ⊢
                                cases hr : Cursor.read input p1 (i64ToUsize len) with
                                | error e => rw [hr] at h; cases h
                                | ok dp =>
                                  rw [hr] at h
                                  rw [read_append input t p1 (i64ToUsize len) dp hr]
                                  exact h
                            · simp only [if_neg h61] at h ⊢
                              by_cases h37 : b = 37
                              · simp only [if_pos h37] at h ⊢
                                cases hi : Cursor.readInteger input p0 with
                                | error e => rw [hi] at h; cases h
                                | ok ip =>
                                  rw [hi] at h
                                  rw [readInteger_append input t p0 ip hi]
                                  obtain ⟨len, p1⟩ := ip
                                  dsimp only at h ⊢
                                  cases hps : parsePairs f input p1 len.toNat with
                                  | error e => rw [hps] at h; cases h
                                  | ok ep =>
                                    rw [hps] at h
                                    rw [ihp f' input t p1 len.toNat ep.1 ep.2 hff hps]
                                    exact h
                              · simp only [if_neg h37] at h ⊢
                                by_cases h126 : b = 126
                                · simp only [if_pos h126] at h ⊢
                                  cases hi : Cursor.readInteger input p0 with
                                  | error e => rw [hi] at h; cases h
                                  | ok ip =>
                                    rw [hi] at h
                                    rw [readInteger_append input t p0 ip hi]
                                    obtain ⟨len, p1⟩ := ip
                                    dsimp only at h ⊢
                                    cases hit : parseItems f input p1 len.toNat with
                                    | error e => rw [hit] at h; cases h
                                    | ok vp =>
                                      rw [hit] at h
                                      rw [ihi f' input t p1 len.toNat vp.1 vp.2 hff hit]
                                      exact h
                                · simp only [if_neg h126] at h ⊢
                                  cases h
    · intro fuel' input t pos n vs p' hle h
      obtain ⟨f', rfl⟩ : ∃ f', fuel' = f' + 1 := ⟨fuel' - 1, by omega⟩
      have hff : f ≤ f' := by omega
      cases n with
      | zero => unfold parseItems at h ⊢; exact h
      | succ m =>
        unfold parseItems at h ⊢
        cases hv1 : parseValue f input pos with
        | error e => rw [hv1] at h; cases h
        | ok vp =>
          rw [hv1] at h
          rw [ihv f' input t pos vp.1 vp.2 hff (by rw [← hv1])]
          obtain ⟨v1, p1⟩ := vp
          dsimp only at h ⊢
          cases hrest : parseItems f input p1 m with
          | error e => rw [hrest] at h; cases h
          | ok vsp =>
            rw [hrest] at h
            rw [ihi f' input t p1 m vsp.1 vsp.2 hff hrest]
            exact h
    · intro fuel' input t pos n es p' hle h
      obtain ⟨f', rfl⟩ : ∃ f', fuel' = f' + 1 := ⟨fuel' - 1, by omega⟩
      have hff : f ≤ f' := by omega
      cases n with
      | zero => unfold parsePairs at h ⊢; exact h
      | succ m =>
        unfold parsePairs at h ⊢
        cases hv1 : parseValue f input pos with
        | error e => rw [hv1] at h; cases h
        | ok kp =>
          rw [hv1] at h
          rw [ihv f' input t pos kp.1 kp.2 hff (by rw [← hv1])]
          obtain ⟨k, p1⟩ := kp
          dsimp only at h ⊢
          cases hv2 : parseValue f input p1 with
          | error e => rw [hv2] at h; cases h
          | ok vp2 =>
            rw [hv2] at h
            rw [ihv f' input t p1 vp2.1 vp2.2 hff (by rw [← hv2])]
            obtain ⟨v2, p2⟩ := vp2
            dsimp only at h ⊢
            cases hrest : parsePairs f input p2 m with
            | error e => rw [hrest] at h; cases h
            | ok esp =>
              rw [hrest] at h
              rw [ihp f' input t p2 m esp.1 esp.2 hff hrest]
              exact h

/-- C10: `parse` never examines bytes past the first complete top-level
value — appending any suffix to an accepted input leaves the parse result
unchanged (trailing bytes are silently accepted). -/
theorem parse_ignores_trailing (b s : List Nat) (v : RespValue)
    (h : parse b = .ok v) : parse (b ++ s) = .ok v := by
  unfold parse at h ⊢
  cases hp : parseValue (2 * b.length + 1) b 0 with
  | error e => rw [hp] at h; cases h
  | ok vp =>
    rw [hp] at h
    rw [(parse_extend (2 * b.length + 1)).1 (2 * (b ++ s).length + 1) b s 0 vp.1 vp.2
      (by simp only [List.length_append]; omega) (by rw [← hp])]
    exact h

/-- C10 witness: a simple string followed by trailing garbage parses to the
same value as the simple string alone. -/
theorem parse_ignores_trailing_witness :
    parse (ascii "+OK\r\n" ++ ascii "*GARBAGE") = .ok (.simpleString (ascii "OK")) :=
  parse_ignores_trailing (ascii "+OK\r\n") (ascii "*GARBAGE") (.simpleString (ascii "OK")) rfl

/-! ## Decimal rendering round-trips  -/

theorem natToDecAux_spec (fuel : Nat) :
    ∀ n, n < fuel →
      natToDecAux fuel n ≠ [] ∧ (natToDecAux fuel n).all isDigitB = true ∧
        decDigitsVal (natToDecAux fuel n) = n := by
  induction fuel with
  | zero => intro n h; omega
  | succ f ih =>
    intro n h
    unfold natToDecAux
    by_cases h10 : n < 10
    · rw [if_pos h10]
      refine ⟨by simp, ?_, ?_⟩
      · simp [isDigitB]
        omega
      · simp [decDigitsVal]
    · rw [if_neg h10]
      have hdiv : n / 10 < f := by omega
      obtain ⟨hne, hall, hval⟩ := ih (n / 10) hdiv
      refine ⟨by simp, ?_, ?_⟩
      · simp only [List.all_append, hall, Bool.true_and, List.all_cons, List.all_nil,
          Bool.and_true]
        simp [isDigitB]
        omega
      · have : decDigitsVal (natToDecAux f (n / 10) ++ [48 + n % 10])
            = decDigitsVal (natToDecAux f (n / 10)) * 10 + (48 + n % 10 - 48) := by
          simp [decDigitsVal, List.foldl_append]
        rw [this, hval]
        omega

theorem decValue?_natToDec (n : Nat) : decValue? (natToDec n) = some n := by
  obtain ⟨hne, hall, hval⟩ := natToDecAux_spec (n + 1) n (by omega)
  unfold decValue? natToDec
  rw [if_neg hne, if_pos hall, hval]

theorem natToDec_all_digits (n : Nat) : (natToDec n).all isDigitB = true :=
  (natToDecAux_spec (n + 1) n (by omega)).2.1

theorem natToDec_ne_nil (n : Nat) : natToDec n ≠ [] :=
  (natToDecAux_spec (n + 1) n (by omega)).1

theorem parseI64_natToDec (n : Nat) (h : (n : Int) ≤ i64Max) :
    parseI64 (natToDec n) = some (n : Int) := by
  rcases hd : natToDec n with _ | ⟨d, r⟩
  · exact absurd hd (natToDec_ne_nil n)
  · have hdd : isDigitB d = true := by
      have := natToDec_all_digits n
      rw [hd] at this
      simp only [List.all_cons, Bool.and_eq_true] at this
      exact this.1
    have hd43 : d ≠ 43 := by intro h'; rw [h'] at hdd; simp [isDigitB] at hdd
    have hd45 : d ≠ 45 := by intro h'; rw [h'] at hdd; simp [isDigitB] at hdd
    rw [← hd]
    unfold parseI64
    split
    · rename_i rest heq
      rw [hd] at heq
      cases heq
      exact absurd rfl hd43
    · rename_i rest heq
      rw [hd] at heq
      cases heq
      exact absurd rfl hd45
    · rw [decValue?_natToDec]
      simp only [Option.some_bind]
      rw [if_pos h]

theorem parseI64_cons45 (r : List Nat) :
    parseI64 (45 :: r) = (decValue? r).bind fun n =>
      if (n : Int) ≤ 2 ^ 63 then some (-(n : Int)) else none := rfl

theorem parseI64_intToDec (i : Int) (h1 : -(2 ^ 63) ≤ i) (h2 : i ≤ i64Max) :
    parseI64 (intToDec i) = some i := by
  unfold intToDec
  by_cases hneg : i < 0
  · rw [if_pos hneg]
    have hle : ((-i).toNat : Int) ≤ 2 ^ 63 := by omega
    rw [parseI64_cons45, decValue?_natToDec]
    simp only [Option.some_bind]
    rw [if_pos hle]
    congr 1
    omega
  · rw [if_neg hneg]
    have hi : (i.toNat : Int) = i := by omega
    rw [← hi] at h2 ⊢
    exact parseI64_natToDec i.toNat h2

/-! ## `noCRLF` and terminator scanning over encoded segments -/

theorem noCRLF_pair (l : List Nat) (h : noCRLF l = true) :
    ∀ k, k + 1 < l.length → ¬(l.getD k 0 = 13 ∧ l.getD (k + 1) 0 = 10) := by
  induction l with
  | nil => intro k hk; simp at hk
  | cons a r ih =>
    rcases r with _ | ⟨b, t⟩
    · intro k hk
      simp at hk
    · have h' : (!(a == 13 && b == 10)) = true ∧ noCRLF (b :: t) = true := by
        unfold noCRLF at h
        simpa using h
      intro k hk
      cases k with
      | zero =>
        intro hpair
        simp only [List.getD_cons_zero, List.getD_cons_succ] at hpair
        rw [hpair.1, hpair.2] at h'
        simp at h'
      | succ m =>
        simp only [List.getD_cons_succ]
        exact ih h'.2 m (by simpa using hk)

theorem noCRLF_of_ne10 (l : List Nat) (h : ∀ x ∈ l, x ≠ 10) : noCRLF l = true := by
  induction l with
  | nil => rfl
  | cons a r ih =>
    rcases r with _ | ⟨b, t⟩
    · rfl
    · unfold noCRLF
      have hb : b ≠ 10 := h b (by simp)
      have hr : noCRLF (b :: t) = true := ih fun x hx => h x (by simp [hx])
      simp [hr, hb]

theorem noCRLF_natToDec (n : Nat) : noCRLF (natToDec n) = true := by
  apply noCRLF_of_ne10
  intro x hx
  have := natToDec_all_digits n
  rw [List.all_eq_true] at this
  have hd := this x hx
  simp [isDigitB] at hd
  omega

theorem noCRLF_intToDec (i : Int) : noCRLF (intToDec i) = true := by
  unfold intToDec
  by_cases hneg : i < 0
  · rw [if_pos hneg]
    apply noCRLF_of_ne10
    intro x hx
    simp only [List.mem_cons] at hx
    rcases hx with rfl | hx
    · omega
    · have := natToDec_all_digits (-i).toNat
      rw [List.all_eq_true] at this
      have hd := this x hx
      simp [isDigitB] at hd
      omega
  · rw [if_neg hneg]
    exact noCRLF_natToDec i.toNat

/-! ## Cursor operations on encoded segments -/

theorem readByte_at (pre tail : List Nat) (b : Nat) :
    Cursor.readByte (pre ++ b :: tail) pre.length = .ok (b, pre.length + 1) := by
  unfold Cursor.readByte
  rw [dif_pos (by simp)]
  congr 2
  rw [List.get_eq_getElem, List.getElem_append_right (le_refl pre.length)]
  simp

theorem read_at (pre s rest : List Nat) (hov : pre.length + s.length < 2 ^ 64) :
    Cursor.read (pre ++ s ++ rest) pre.length s.length = .ok (s, pre.length + s.length) := by
  unfold Cursor.read
  rw [if_neg (by omega), if_neg (by simp)]
  rw [List.append_assoc, List.drop_left, List.take_left]

theorem readLine_at (pre s rest : List Nat) (hs : noCRLF s = true) :
    Cursor.readLine (pre ++ s ++ 13 :: 10 :: rest) pre.length
      = .ok (s, pre.length + s.length + 2) := by
  have hlen : (pre ++ s ++ 13 :: 10 :: rest).length
      = pre.length + s.length + (2 + rest.length) := by
    simp
    omega
  have hcr : (pre ++ s ++ 13 :: 10 :: rest).getD (pre.length + s.length) 0 = 13 := by
    rw [List.getD_append_right]
    · simp
    · simp
  have hlf : (pre ++ s ++ 13 :: 10 :: rest).getD (pre.length + s.length + 1) 0 = 10 := by
    rw [List.getD_append_right]
    · simp
    · simp
  have hmin : ∀ j, pre.length ≤ j → j < pre.length + s.length →
      ¬((pre ++ s ++ 13 :: 10 :: rest).getD j 0 = 13 ∧
        (pre ++ s ++ 13 :: 10 :: rest).getD (j + 1) 0 = 10) := by
    intro j hj hji hpair
    have hg1 : (pre ++ s ++ 13 :: 10 :: rest).getD j 0 = s.getD (j - pre.length) 0 := by
      rw [List.getD_append _ _ _ _ (by simp; omega), List.getD_append_right _ _ _ _ hj]
    by_cases hj2 : j + 1 < pre.length + s.length
    · have hg2 : (pre ++ s ++ 13 :: 10 :: rest).getD (j + 1) 0
          = s.getD (j + 1 - pre.length) 0 := by
        rw [List.getD_append _ _ _ _ (by simp; omega),
          List.getD_append_right _ _ _ _ (by omega)]
      refine noCRLF_pair s hs (j - pre.length) (by omega) ⟨?_, ?_⟩
      · rw [← hg1]
        exact hpair.1
      · rw [show j - pre.length + 1 = j + 1 - pre.length by omega, ← hg2]
        exact hpair.2
    · have hj3 : j + 1 = pre.length + s.length := by omega
      rw [hj3] at hpair
      have h13 := hcr.symm.trans hpair.2
      cases h13
  have hne0 : (pre ++ s ++ 13 :: 10 :: rest).length ≠ 0 := by omega
  unfold Cursor.readLine
  rw [if_neg hne0]
  have hfound := readLineGo_found (pre ++ s ++ 13 :: 10 :: rest) pre.length
    (pre ++ s ++ 13 :: 10 :: rest).length pre.length (pre.length + s.length)
    (by omega) (by omega) hcr hlf hmin (by omega)
  rw [hfound]
  have hslice : ((pre ++ s ++ 13 :: 10 :: rest).drop pre.length).take
      (pre.length + s.length - pre.length) = s := by
    rw [List.append_assoc, List.drop_left,
      show pre.length + s.length - pre.length = s.length by omega, List.take_left]
  rw [hslice]

theorem readString_at (pre s rest : List Nat) (hs : noCRLF s = true)
    (hu : validUtf8 s = true) :
    Cursor.readString (pre ++ s ++ 13 :: 10 :: rest) pre.length
      = .ok (s, pre.length + s.length + 2) := by
  unfold Cursor.readString
  rw [readLine_at pre s rest hs]
  dsimp only
  simp [hu]

theorem readIntegerNat_at (pre rest : List Nat) (n : Nat) (h : (n : Int) ≤ i64Max) :
    Cursor.readInteger (pre ++ natToDec n ++ 13 :: 10 :: rest) pre.length
      = .ok ((n : Int), pre.length + (natToDec n).length + 2) := by
  unfold Cursor.readInteger
  rw [readLine_at pre (natToDec n) rest (noCRLF_natToDec n)]
  dsimp only
  rw [parseI64_natToDec n h]

theorem readIntegerInt_at (pre rest : List Nat) (i : Int) (h1 : -(2 ^ 63) ≤ i)
    (h2 : i ≤ i64Max) :
    Cursor.readInteger (pre ++ intToDec i ++ 13 :: 10 :: rest) pre.length
      = .ok (i, pre.length + (intToDec i).length + 2) := by
  unfold Cursor.readInteger
  rw [readLine_at pre (intToDec i) rest (noCRLF_intToDec i)]
  dsimp only
  rw [parseI64_intToDec i h1 h2]

theorem i64ToUsize_natCast (n : Nat) (h : n < 2 ^ 64) : i64ToUsize (n : Int) = n := by
  unfold i64ToUsize
  omega

end RedisRust

namespace RedisRust

theorem asBytes_length_pos (v : RespValue) : 1 ≤ (RespValue.asBytes v).length := by
  cases v <;> simp only [RespValue.asBytes, List.length_cons] <;> omega

theorem validUtf8_ascii_bytes (l : List Nat) (h : ∀ x ∈ l, x ≤ 127) : validUtf8 l = true := by
  induction l with
  | nil => rfl
  | cons b r ih =>
    unfold validUtf8
    rw [if_pos (h b (by simp))]
    exact ih fun x hx => h x (by simp [hx])

theorem bigNumber_payload_props (b : Nat) (hb : b = 43 ∨ b = 45) (r : List Nat)
    (hr : r.all isDigitB = true) :
    validUtf8 (b :: r) = true ∧ noCRLF (b :: r) = true := by
  simp only [List.all_eq_true] at hr
  constructor
  · refine validUtf8_ascii_bytes _ ?_
    intro x hx
    simp only [List.mem_cons] at hx
    rcases hx with rfl | hx
    · rcases hb with rfl | rfl <;> norm_num
    · have := hr x hx
      simp [isDigitB] at this
      omega
  · refine noCRLF_of_ne10 _ ?_
    intro x hx
    simp only [List.mem_cons] at hx
    rcases hx with rfl | hx
    · rcases hb with rfl | rfl <;> norm_num
    · have := hr x hx
      simp [isDigitB] at this
      omega

theorem read2_at (pre rest : List Nat) (hov : pre.length + 2 < 2 ^ 64) :
    Cursor.read (pre ++ 13 :: 10 :: rest) pre.length 2 = .ok ([13, 10], pre.length + 2) := by
  have h := read_at pre [13, 10] rest (by simpa using hov)
  simpa using h

end RedisRust

namespace RedisRust

set_option maxHeartbeats 2000000 in
theorem parse_asBytes_aux (fuel : Nat) :
    (∀ v pre rest, WF v = true → Composable v = true →
      2 * ((RespValue.asBytes v).length + rest.length) + 1 ≤ fuel →
      pre.length + (RespValue.asBytes v).length + rest.length < 2 ^ 64 →
      parseValue fuel (pre ++ RespValue.asBytes v ++ rest) pre.length
        = .ok (v, pre.length + (RespValue.asBytes v).length)) ∧
    (∀ vs pre rest, WFList vs = true → ComposableList vs = true →
      2 * ((RespValue.asBytesList vs).length + rest.length) + 2 ≤ fuel →
      pre.length + (RespValue.asBytesList vs).length + rest.length < 2 ^ 64 →
      parseItems fuel (pre ++ RespValue.asBytesList vs ++ rest) pre.length vs.length
        = .ok (vs, pre.length + (RespValue.asBytesList vs).length)) ∧
    (∀ es pre rest, WFPairs es = true → ComposablePairs es = true →
      2 * ((RespValue.asBytesPairs es).length + rest.length) + 2 ≤ fuel →
      pre.length + (RespValue.asBytesPairs es).length + rest.length < 2 ^ 64 →
      parsePairs fuel (pre ++ RespValue.asBytesPairs es ++ rest) pre.length es.length
        = .ok (es, pre.length + (RespValue.asBytesPairs es).length)) := by
  induction fuel with
  | zero =>
    refine ⟨?_, ?_, ?_⟩ <;> intros <;> omega
  | succ f ih =>
    obtain ⟨ihv, ihi, ihp⟩ := ih
    refine ⟨?_, ?_, ?_⟩
    · intro v pre rest hWF hC hfuel hsz
      cases v
      case trueV => simp [Composable] at hC
      case falseV => simp [Composable] at hC
      case bulkError s => simp [Composable] at hC
      case verbatimString enc s => simp [Composable] at hC
      case simpleString s =>
        simp only [WF, Bool.and_eq_true] at hWF
        have hshape : pre ++ RespValue.asBytes (.simpleString s) ++ rest
            = pre ++ 43 :: (s ++ 13 :: 10 :: rest) := by
          simp [RespValue.asBytes, crlf]
        rw [hshape]
        unfold parseValue
        rw [readByte_at pre (s ++ 13 :: 10 :: rest) 43]
        norm_num
        rw [show pre ++ 43 :: (s ++ 13 :: 10 :: rest) = (pre ++ [43]) ++ s ++ 13 :: 10 :: rest
          by simp]
        rw [show pre.length + 1 = (pre ++ [43]).length by simp]
        rw [readString_at (pre ++ [43]) s rest hWF.2 hWF.1]
        simp [RespValue.asBytes, crlf]
        omega
      case error s =>
        simp only [WF, Bool.and_eq_true] at hWF
        have hshape : pre ++ RespValue.asBytes (.error s) ++ rest
            = pre ++ 45 :: (s ++ 13 :: 10 :: rest) := by
          simp [RespValue.asBytes, crlf]
        rw [hshape]
        unfold parseValue
        rw [readByte_at pre (s ++ 13 :: 10 :: rest) 45]
        norm_num
        rw [show pre ++ 45 :: (s ++ 13 :: 10 :: rest) = (pre ++ [45]) ++ s ++ 13 :: 10 :: rest
          by simp]
        rw [show pre.length + 1 = (pre ++ [45]).length by simp]
        rw [readString_at (pre ++ [45]) s rest hWF.2 hWF.1]
        simp [RespValue.asBytes, crlf]
        omega
      case integer n =>
        simp only [WF, Bool.and_eq_true, decide_eq_true_eq] at hWF
        have hshape : pre ++ RespValue.asBytes (.integer n) ++ rest
            = pre ++ 58 :: (intToDec n ++ 13 :: 10 :: rest) := by
          simp [RespValue.asBytes, crlf]
        rw [hshape]
        unfold parseValue
        rw [readByte_at pre (intToDec n ++ 13 :: 10 :: rest) 58]
        norm_num
        rw [show pre ++ 58 :: (intToDec n ++ 13 :: 10 :: rest)
            = (pre ++ [58]) ++ intToDec n ++ 13 :: 10 :: rest by simp]
        rw [show pre.length + 1 = (pre ++ [58]).length by simp]
        rw [readIntegerInt_at (pre ++ [58]) rest n hWF.1 hWF.2]
        simp [RespValue.asBytes, crlf]
        omega
      case null =>
        have hshape : pre ++ RespValue.asBytes .null ++ rest
            = pre ++ 95 :: (13 :: 10 :: rest) := by
          simp [RespValue.asBytes]
        rw [hshape]
        unfold parseValue
        rw [readByte_at pre (13 :: 10 :: rest) 95]
        norm_num
        rw [show pre ++ 95 :: (13 :: 10 :: rest) = (pre ++ [95]) ++ 13 :: 10 :: rest by simp]
        rw [show pre.length + 1 = (pre ++ [95]).length by simp]
        rw [read2_at (pre ++ [95]) rest (by simp [RespValue.asBytes] at hsz ⊢; omega)]
        norm_num [crlf]
        simp [RespValue.asBytes]
      case nullBulkString =>
        have hshape : pre ++ RespValue.asBytes .nullBulkString ++ rest
            = pre ++ 36 :: (intToDec (-1) ++ 13 :: 10 :: rest) := by
          simp [RespValue.asBytes, show intToDec (-1) = [45, 49] by decide]
        rw [hshape]
        unfold parseValue
        rw [readByte_at pre (intToDec (-1) ++ 13 :: 10 :: rest) 36]
        norm_num
        rw [show pre ++ 36 :: (intToDec (-1) ++ 13 :: 10 :: rest)
            = (pre ++ [36]) ++ intToDec (-1) ++ 13 :: 10 :: rest by simp]
        rw [show pre.length + 1 = (pre ++ [36]).length by simp]
        rw [readIntegerInt_at (pre ++ [36]) rest (-1) (by norm_num) (by norm_num [i64Max])]
        norm_num
        simp [RespValue.asBytes, show intToDec (-1) = [45, 49] by decide]
      case positiveInfinity =>
        have hshape : pre ++ RespValue.asBytes .positiveInfinity ++ rest
            = pre ++ 44 :: 105 :: 110 :: 102 :: 13 :: 10 :: rest := by
          simp [RespValue.asBytes]
        rw [hshape]
        unfold parseValue
        rw [readByte_at pre (105 :: 110 :: 102 :: 13 :: 10 :: rest) 44]
        norm_num
        rw [show pre ++ 44 :: 105 :: 110 :: 102 :: 13 :: 10 :: rest
            = (pre ++ [44]) ++ [105, 110, 102] ++ 13 :: 10 :: rest by simp]
        rw [show pre.length + 1 = (pre ++ [44]).length by simp]
        rw [readLine_at (pre ++ [44]) [105, 110, 102] rest (by decide)]
        dsimp only
        rw [if_pos (show ([105, 110, 102] : List Nat) = ascii "inf" by decide)]
        simp [RespValue.asBytes]
      case negativeInfinity =>
        have hshape : pre ++ RespValue.asBytes .negativeInfinity ++ rest
            = pre ++ 44 :: 45 :: 105 :: 110 :: 102 :: 13 :: 10 :: rest := by
          simp [RespValue.asBytes]
        rw [hshape]
        unfold parseValue
        rw [readByte_at pre (45 :: 105 :: 110 :: 102 :: 13 :: 10 :: rest) 44]
        norm_num
        rw [show pre ++ 44 :: 45 :: 105 :: 110 :: 102 :: 13 :: 10 :: rest
            = (pre ++ [44]) ++ [45, 105, 110, 102] ++ 13 :: 10 :: rest by simp]
        rw [show pre.length + 1 = (pre ++ [44]).length by simp]
        rw [readLine_at (pre ++ [44]) [45, 105, 110, 102] rest (by decide)]
        dsimp only
        rw [if_neg (show ¬(([45, 105, 110, 102] : List Nat) = ascii "inf") by decide)]
        rw [if_pos (show ([45, 105, 110, 102] : List Nat) = ascii "-inf" by decide)]
        simp [RespValue.asBytes]
      case nan =>
        have hshape : pre ++ RespValue.asBytes .nan ++ rest
            = pre ++ 44 :: 110 :: 97 :: 110 :: 13 :: 10 :: rest := by
          simp [RespValue.asBytes]
        rw [hshape]
        unfold parseValue
        rw [readByte_at pre (110 :: 97 :: 110 :: 13 :: 10 :: rest) 44]
        norm_num
        rw [show pre ++ 44 :: 110 :: 97 :: 110 :: 13 :: 10 :: rest
            = (pre ++ [44]) ++ [110, 97, 110] ++ 13 :: 10 :: rest by simp]
        rw [show pre.length + 1 = (pre ++ [44]).length by simp]
        rw [readLine_at (pre ++ [44]) [110, 97, 110] rest (by decide)]
        dsimp only
        rw [if_neg (show ¬(([110, 97, 110] : List Nat) = ascii "inf") by decide)]
        rw [if_neg (show ¬(([110, 97, 110] : List Nat) = ascii "-inf") by decide)]
        rw [if_pos (show ([110, 97, 110] : List Nat) = ascii "nan" by decide)]
        simp [RespValue.asBytes]
      case double repr =>
        simp only [WF, Bool.and_eq_true, decide_eq_true_eq] at hWF
        obtain ⟨⟨⟨⟨hcr, hval⟩, hni⟩, hnni⟩, hnan⟩ := hWF
        have hshape : pre ++ RespValue.asBytes (.double repr) ++ rest
            = pre ++ 44 :: (repr ++ 13 :: 10 :: rest) := by
          simp [RespValue.asBytes, crlf]
        rw [hshape]
        unfold parseValue
        rw [readByte_at pre (repr ++ 13 :: 10 :: rest) 44]
        norm_num
        rw [show pre ++ 44 :: (repr ++ 13 :: 10 :: rest)
            = (pre ++ [44]) ++ repr ++ 13 :: 10 :: rest by simp]
        rw [show pre.length + 1 = (pre ++ [44]).length by simp]
        rw [readLine_at (pre ++ [44]) repr rest hcr]
        dsimp only
        rw [if_neg hni, if_neg hnni, if_neg hnan, if_pos hval]
        simp [RespValue.asBytes, crlf]
        omega
      case bigNumber s =>
        unfold WF at hWF
        split at hWF
        next r =>
          obtain ⟨hu, hcr⟩ := bigNumber_payload_props 43 (Or.inl rfl) r hWF
          have hshape : pre ++ RespValue.asBytes (.bigNumber (43 :: r)) ++ rest
              = pre ++ 40 :: 43 :: (r ++ 13 :: 10 :: rest) := by
            simp [RespValue.asBytes, crlf]
          rw [hshape]
          unfold parseValue
          rw [readByte_at pre (43 :: (r ++ 13 :: 10 :: rest)) 40]
          norm_num
          rw [show pre ++ 40 :: 43 :: (r ++ 13 :: 10 :: rest)
              = (pre ++ [40]) ++ (43 :: r) ++ 13 :: 10 :: rest by simp]
          rw [show pre.length + 1 = (pre ++ [40]).length by simp]
          rw [readString_at (pre ++ [40]) (43 :: r) rest hcr hu]
          dsimp only
          rw [if_pos (show ∀ x ∈ r, isDigitB x = true from by simpa using hWF)]
          simp [RespValue.asBytes, crlf]
          omega
        next r =>
          obtain ⟨hu, hcr⟩ := bigNumber_payload_props 45 (Or.inr rfl) r hWF
          have hshape : pre ++ RespValue.asBytes (.bigNumber (45 :: r)) ++ rest
              = pre ++ 40 :: 45 :: (r ++ 13 :: 10 :: rest) := by
            simp [RespValue.asBytes, crlf]
          rw [hshape]
          unfold parseValue
          rw [readByte_at pre (45 :: (r ++ 13 :: 10 :: rest)) 40]
          norm_num
          rw [show pre ++ 40 :: 45 :: (r ++ 13 :: 10 :: rest)
              = (pre ++ [40]) ++ (45 :: r) ++ 13 :: 10 :: rest by simp]
          rw [show pre.length + 1 = (pre ++ [40]).length by simp]
          rw [readString_at (pre ++ [40]) (45 :: r) rest hcr hu]
          dsimp only
          rw [if_pos (show ∀ x ∈ r, isDigitB x = true from by simpa using hWF)]
          simp [RespValue.asBytes, crlf]
          omega
        next => simp at hWF
      case bulkString s =>
        simp only [WF, Bool.and_eq_true, decide_eq_true_eq] at hWF
        obtain ⟨hu, hlen⟩ := hWF
        have hlenB : (RespValue.asBytes (.bulkString s)).length
            = 1 + (natToDec s.length).length + 2 + s.length + 2 := by
          simp [RespValue.asBytes, crlf]
          omega
        rw [hlenB] at hsz
        have hshape : pre ++ RespValue.asBytes (.bulkString s) ++ rest
            = pre ++ 36 :: (natToDec s.length ++ 13 :: 10 :: (s ++ 13 :: 10 :: rest)) := by
          simp [RespValue.asBytes, crlf]
        rw [hshape]
        unfold parseValue
        rw [readByte_at pre (natToDec s.length ++ 13 :: 10 :: (s ++ 13 :: 10 :: rest)) 36]
        norm_num
        rw [show pre ++ 36 :: (natToDec s.length ++ 13 :: 10 :: (s ++ 13 :: 10 :: rest))
            = (pre ++ [36]) ++ natToDec s.length ++ 13 :: 10 :: (s ++ 13 :: 10 :: rest)
            by simp]
        rw [show pre.length + 1 = (pre ++ [36]).length by simp]
        rw [readIntegerNat_at (pre ++ [36]) (s ++ 13 :: 10 :: rest) s.length
          (by simp [i64Max]; omega)]
        dsimp only
        rw [if_neg (show ¬((s.length : Int) = -1) by omega)]
        rw [show i64ToUsize (s.length : Int) = s.length from i64ToUsize_natCast s.length (by omega)]
        rw [show (pre ++ [36]) ++ natToDec s.length ++ 13 :: 10 :: (s ++ 13 :: 10 :: rest)
            = ((pre ++ [36]) ++ natToDec s.length ++ [13, 10]) ++ s ++ 13 :: 10 :: rest by simp]
        have hpos : (pre ++ [36]).length + (natToDec s.length).length + 2
            = ((pre ++ [36]) ++ natToDec s.length ++ [13, 10]).length := by
          simp only [List.length_append, List.length_cons, List.length_nil]
        rw [hpos]
        rw [read_at ((pre ++ [36]) ++ natToDec s.length ++ [13, 10]) s (13 :: 10 :: rest)
          (by simp; omega)]
        dsimp only
        rw [if_pos hu]
        have hpos2 : ((pre ++ [36]) ++ natToDec s.length ++ [13, 10]).length + s.length
            = (((pre ++ [36]) ++ natToDec s.length ++ [13, 10]) ++ s).length := by
          simp only [List.length_append, List.length_cons, List.length_nil]
        rw [hpos2]
        rw [read2_at (((pre ++ [36]) ++ natToDec s.length ++ [13, 10]) ++ s) rest
          (by simp; omega)]
        norm_num [crlf]
        simp [RespValue.asBytes, crlf]
        omega
      case array vs =>
        simp only [WF, Bool.and_eq_true, decide_eq_true_eq] at hWF
        obtain ⟨hlen, hwl⟩ := hWF
        simp only [Composable] at hC
        have hnd : 1 ≤ (natToDec vs.length).length :=
          List.length_pos.mpr (natToDec_ne_nil _)
        have hlenB : (RespValue.asBytes (.array vs)).length
            = 1 + (natToDec vs.length).length + 2 + (RespValue.asBytesList vs).length := by
          simp [RespValue.asBytes, crlf]
          omega
        rw [hlenB] at hsz hfuel
        have hshape : pre ++ RespValue.asBytes (.array vs) ++ rest
            = pre ++ 42 :: (natToDec vs.length ++ 13 :: 10 :: (RespValue.asBytesList vs ++ rest)) := by
          simp [RespValue.asBytes, crlf]
        rw [hshape]
        unfold parseValue
        rw [readByte_at pre (natToDec vs.length ++ 13 :: 10 :: (RespValue.asBytesList vs ++ rest)) 42]
        norm_num
        rw [show pre ++ 42 :: (natToDec vs.length ++ 13 :: 10 :: (RespValue.asBytesList vs ++ rest))
            = (pre ++ [42]) ++ natToDec vs.length ++ 13 :: 10 :: (RespValue.asBytesList vs ++ rest)
            by simp]
        rw [show pre.length + 1 = (pre ++ [42]).length by simp]
        rw [readIntegerNat_at (pre ++ [42]) (RespValue.asBytesList vs ++ rest) vs.length
          (by simp [i64Max]; omega)]
        dsimp only
        rw [if_neg (show ¬((vs.length : Int) = -1) by omega)]
        rw [show ((vs.length : Int)).toNat = vs.length from by simp]
        rw [show (pre ++ [42]) ++ natToDec vs.length ++ 13 :: 10 :: (RespValue.asBytesList vs ++ rest)
            = ((pre ++ [42]) ++ natToDec vs.length ++ [13, 10]) ++ RespValue.asBytesList vs ++ rest
            by simp]
        have hpos : (pre ++ [42]).length + (natToDec vs.length).length + 2
            = ((pre ++ [42]) ++ natToDec vs.length ++ [13, 10]).length := by
          simp only [List.length_append, List.length_cons, List.length_nil]
        rw [hpos]
        rw [ihi vs ((pre ++ [42]) ++ natToDec vs.length ++ [13, 10]) rest hwl hC
          (by omega) (by simp; omega)]
        simp [RespValue.asBytes, crlf]
        omega
      case set vs =>
        simp only [WF, Bool.and_eq_true, decide_eq_true_eq] at hWF
        obtain ⟨hlen, hwl⟩ := hWF
        simp only [Composable] at hC
        have hnd : 1 ≤ (natToDec vs.length).length :=
          List.length_pos.mpr (natToDec_ne_nil _)
        have hlenB : (RespValue.asBytes (.set vs)).length
            = 1 + (natToDec vs.length).length + 2 + (RespValue.asBytesList vs).length := by
          simp [RespValue.asBytes, crlf]
          omega
        rw [hlenB] at hsz hfuel
        have hshape : pre ++ RespValue.asBytes (.set vs) ++ rest
            = pre ++ 126 :: (natToDec vs.length ++ 13 :: 10 :: (RespValue.asBytesList vs ++ rest)) := by
          simp [RespValue.asBytes, crlf]
        rw [hshape]
        unfold parseValue
        rw [readByte_at pre (natToDec vs.length ++ 13 :: 10 :: (RespValue.asBytesList vs ++ rest)) 126]
        norm_num
        rw [show pre ++ 126 :: (natToDec vs.length ++ 13 :: 10 :: (RespValue.asBytesList vs ++ rest))
            = (pre ++ [126]) ++ natToDec vs.length ++ 13 :: 10 :: (RespValue.asBytesList vs ++ rest)
            by simp]
        rw [show pre.length + 1 = (pre ++ [126]).length by simp]
        rw [readIntegerNat_at (pre ++ [126]) (RespValue.asBytesList vs ++ rest) vs.length
          (by simp [i64Max]; omega)]
        dsimp only
        rw [show ((vs.length : Int)).toNat = vs.length from by simp]
        rw [show (pre ++ [126]) ++ natToDec vs.length ++ 13 :: 10 :: (RespValue.asBytesList vs ++ rest)
            = ((pre ++ [126]) ++ natToDec vs.length ++ [13, 10]) ++ RespValue.asBytesList vs ++ rest
            by simp]
        have hpos : (pre ++ [126]).length + (natToDec vs.length).length + 2
            = ((pre ++ [126]) ++ natToDec vs.length ++ [13, 10]).length := by
          simp only [List.length_append, List.length_cons, List.length_nil]
        rw [hpos]
        rw [ihi vs ((pre ++ [126]) ++ natToDec vs.length ++ [13, 10]) rest hwl hC
          (by omega) (by simp; omega)]
        simp [RespValue.asBytes, crlf]
        omega
      case map entries =>
        simp only [WF, Bool.and_eq_true, decide_eq_true_eq] at hWF
        obtain ⟨hlen, hwp⟩ := hWF
        simp only [Composable] at hC
        have hnd : 1 ≤ (natToDec entries.length).length :=
          List.length_pos.mpr (natToDec_ne_nil _)
        have hlenB : (RespValue.asBytes (.map entries)).length
            = 1 + (natToDec entries.length).length + 2 + (RespValue.asBytesPairs entries).length := by
          simp [RespValue.asBytes, crlf]
          omega
        rw [hlenB] at hsz hfuel
        have hshape : pre ++ RespValue.asBytes (.map entries) ++ rest
            = pre ++ 37 :: (natToDec entries.length ++ 13 :: 10 :: (RespValue.asBytesPairs entries ++ rest)) := by
          simp [RespValue.asBytes, crlf]
        rw [hshape]
        unfold parseValue
        rw [readByte_at pre (natToDec entries.length ++ 13 :: 10 :: (RespValue.asBytesPairs entries ++ rest)) 37]
        norm_num
        rw [show pre ++ 37 :: (natToDec entries.length ++ 13 :: 10 :: (RespValue.asBytesPairs entries ++ rest))
            = (pre ++ [37]) ++ natToDec entries.length ++ 13 :: 10 :: (RespValue.asBytesPairs entries ++ rest)
            by simp]
        rw [show pre.length + 1 = (pre ++ [37]).length by simp]
        rw [readIntegerNat_at (pre ++ [37]) (RespValue.asBytesPairs entries ++ rest) entries.length
          (by simp [i64Max]; omega)]
        dsimp only
        rw [show ((entries.length : Int)).toNat = entries.length from by simp]
        rw [show (pre ++ [37]) ++ natToDec entries.length ++ 13 :: 10 :: (RespValue.asBytesPairs entries ++ rest)
            = ((pre ++ [37]) ++ natToDec entries.length ++ [13, 10]) ++ RespValue.asBytesPairs entries ++ rest
            by simp]
        have hpos : (pre ++ [37]).length + (natToDec entries.length).length + 2
            = ((pre ++ [37]) ++ natToDec entries.length ++ [13, 10]).length := by
          simp only [List.length_append, List.length_cons, List.length_nil]
        rw [hpos]
        rw [ihp entries ((pre ++ [37]) ++ natToDec entries.length ++ [13, 10]) rest hwp hC
          (by omega) (by simp; omega)]
        simp [RespValue.asBytes, crlf]
        omega
    · intro vs pre rest hWF hC hfuel hsz
      cases vs with
      | nil => simp [parseItems, RespValue.asBytesList]
      | cons v vs =>
        simp only [WFList, Bool.and_eq_true] at hWF
        simp only [ComposableList, Bool.and_eq_true] at hC
        have hv1 := asBytes_length_pos v
        rw [show pre ++ RespValue.asBytesList (v :: vs) ++ rest
            = pre ++ RespValue.asBytes v ++ (RespValue.asBytesList vs ++ rest) from by
          simp [RespValue.asBytesList]]
        have hLB : (RespValue.asBytesList (v :: vs)).length
            = (RespValue.asBytes v).length + (RespValue.asBytesList vs).length := by
          simp [RespValue.asBytesList]
        rw [hLB] at hfuel hsz ⊢
        simp only [List.length_cons]
        simp only [parseItems]
        rw [ihv v pre (RespValue.asBytesList vs ++ rest) hWF.1 hC.1 (by simp; omega)
          (by simp; omega)]
        dsimp only
        rw [show pre ++ RespValue.asBytes v ++ (RespValue.asBytesList vs ++ rest)
            = (pre ++ RespValue.asBytes v) ++ RespValue.asBytesList vs ++ rest by simp]
        rw [show pre.length + (RespValue.asBytes v).length
            = (pre ++ RespValue.asBytes v).length by simp]
        rw [ihi vs (pre ++ RespValue.asBytes v) rest hWF.2 hC.2 (by omega) (by simp; omega)]
        simp
        omega
    · intro es pre rest hWF hC hfuel hsz
      cases es with
      | nil => simp [parsePairs, RespValue.asBytesPairs]
      | cons e es =>
        obtain ⟨k, v⟩ := e
        simp only [WFPairs, Bool.and_eq_true] at hWF
        obtain ⟨⟨hk, hv⟩, hes⟩ := hWF
        simp only [ComposablePairs, Bool.and_eq_true] at hC
        obtain ⟨⟨hCk, hCv⟩, hCes⟩ := hC
        have hk1 := asBytes_length_pos k
        have hv1 := asBytes_length_pos v
        rw [show pre ++ RespValue.asBytesPairs ((k, v) :: es) ++ rest
            = pre ++ RespValue.asBytes k
              ++ (RespValue.asBytes v ++ (RespValue.asBytesPairs es ++ rest)) from by
          simp [RespValue.asBytesPairs]]
        have hPB : (RespValue.asBytesPairs ((k, v) :: es)).length
            = (RespValue.asBytes k).length + (RespValue.asBytes v).length
              + (RespValue.asBytesPairs es).length := by
          simp [RespValue.asBytesPairs]
          omega
        rw [hPB] at hfuel hsz ⊢
        simp only [List.length_cons]
        simp only [parsePairs]
        rw [ihv k pre (RespValue.asBytes v ++ (RespValue.asBytesPairs es ++ rest)) hk hCk
          (by simp; omega) (by simp; omega)]
        dsimp only
        rw [show pre ++ RespValue.asBytes k
              ++ (RespValue.asBytes v ++ (RespValue.asBytesPairs es ++ rest))
            = (pre ++ RespValue.asBytes k)
              ++ RespValue.asBytes v ++ (RespValue.asBytesPairs es ++ rest) by simp]
        rw [show pre.length + (RespValue.asBytes k).length
            = (pre ++ RespValue.asBytes k).length by simp]
        rw [ihv v (pre ++ RespValue.asBytes k) (RespValue.asBytesPairs es ++ rest) hv hCv
          (by simp; omega) (by simp; omega)]
        dsimp only
        rw [show (pre ++ RespValue.asBytes k)
              ++ RespValue.asBytes v ++ (RespValue.asBytesPairs es ++ rest)
            = ((pre ++ RespValue.asBytes k) ++ RespValue.asBytes v)
              ++ RespValue.asBytesPairs es ++ rest by simp]
        have hposkv : (pre ++ RespValue.asBytes k).length + (RespValue.asBytes v).length
            = ((pre ++ RespValue.asBytes k) ++ RespValue.asBytes v).length := by
          simp only [List.length_append]
        rw [hposkv]
        rw [ihp es ((pre ++ RespValue.asBytes k) ++ RespValue.asBytes v) rest hes hCes
          (by omega) (by simp; omega)]
        simp
        omega

end RedisRust

namespace RedisRust

theorem parseValue_bulkError (f : Nat) (s pre rest : List Nat) (hu : validUtf8 s = true)
    (hlen : s.length < 2 ^ 63)
    (hsz : pre.length + (RespValue.asBytes (.bulkError s)).length + rest.length < 2 ^ 64) :
    parseValue (f + 1) (pre ++ RespValue.asBytes (.bulkError s) ++ rest) pre.length
      = .ok (.bulkError s, pre.length + 1 + (natToDec s.length).length + 2 + s.length) := by
  have hlenB : (RespValue.asBytes (.bulkError s)).length
      = 1 + (natToDec s.length).length + 2 + s.length + 2 := by
    simp [RespValue.asBytes, crlf]
    omega
  rw [hlenB] at hsz
  have hshape : pre ++ RespValue.asBytes (.bulkError s) ++ rest
      = pre ++ 33 :: (natToDec s.length ++ 13 :: 10 :: (s ++ 13 :: 10 :: rest)) := by
    simp [RespValue.asBytes, crlf]
  rw [hshape]
  unfold parseValue
  rw [readByte_at pre (natToDec s.length ++ 13 :: 10 :: (s ++ 13 :: 10 :: rest)) 33]
  norm_num
  rw [show pre ++ 33 :: (natToDec s.length ++ 13 :: 10 :: (s ++ 13 :: 10 :: rest))
      = (pre ++ [33]) ++ natToDec s.length ++ 13 :: 10 :: (s ++ 13 :: 10 :: rest)
      by simp]
  rw [show pre.length + 1 = (pre ++ [33]).length by simp]
  rw [readIntegerNat_at (pre ++ [33]) (s ++ 13 :: 10 :: rest) s.length
    (by simp [i64Max]; omega)]
  dsimp only
  rw [show i64ToUsize (s.length : Int) = s.length from i64ToUsize_natCast s.length (by omega)]
  rw [show (pre ++ [33]) ++ natToDec s.length ++ 13 :: 10 :: (s ++ 13 :: 10 :: rest)
      = ((pre ++ [33]) ++ natToDec s.length ++ [13, 10]) ++ s ++ 13 :: 10 :: rest by simp]
  have hpos : (pre ++ [33]).length + (natToDec s.length).length + 2
      = ((pre ++ [33]) ++ natToDec s.length ++ [13, 10]).length := by
    simp only [List.length_append, List.length_cons, List.length_nil]
  rw [hpos]
  rw [read_at ((pre ++ [33]) ++ natToDec s.length ++ [13, 10]) s (13 :: 10 :: rest)
    (by simp; omega)]
  dsimp only
  rw [if_pos hu]

theorem parseValue_verbatim (f : Nat) (enc s pre rest : List Nat)
    (henc : enc.length = 3) (hu1 : validUtf8 enc = true) (hu2 : validUtf8 s = true)
    (hlen : enc.length + s.length + 1 < 2 ^ 63)
    (hsz : pre.length + (RespValue.asBytes (.verbatimString enc s)).length + rest.length
      < 2 ^ 64) :
    parseValue (f + 1) (pre ++ RespValue.asBytes (.verbatimString enc s) ++ rest) pre.length
      = .ok (.verbatimString enc s,
          pre.length + 1 + (natToDec (enc.length + s.length + 1)).length + 2
            + (enc.length + s.length + 1)) := by
  have hlenB : (RespValue.asBytes (.verbatimString enc s)).length
      = 1 + (natToDec (enc.length + s.length + 1)).length + 2
          + (enc.length + s.length + 1) + 2 := by
    simp [RespValue.asBytes, crlf, henc]
    omega
  rw [hlenB] at hsz
  have hshape : pre ++ RespValue.asBytes (.verbatimString enc s) ++ rest
      = pre ++ 61 :: (natToDec (enc.length + s.length + 1)
          ++ 13 :: 10 :: (enc ++ 58 :: (s ++ 13 :: 10 :: rest))) := by
    simp [RespValue.asBytes, crlf]
  rw [hshape]
  unfold parseValue
  rw [readByte_at pre (natToDec (enc.length + s.length + 1)
    ++ 13 :: 10 :: (enc ++ 58 :: (s ++ 13 :: 10 :: rest))) 61]
  norm_num
  rw [show pre ++ 61 :: (natToDec (enc.length + s.length + 1)
        ++ 13 :: 10 :: (enc ++ 58 :: (s ++ 13 :: 10 :: rest)))
      = (pre ++ [61]) ++ natToDec (enc.length + s.length + 1)
        ++ 13 :: 10 :: (enc ++ 58 :: (s ++ 13 :: 10 :: rest)) by simp]
  rw [show pre.length + 1 = (pre ++ [61]).length by simp]
  rw [readIntegerNat_at (pre ++ [61]) (enc ++ 58 :: (s ++ 13 :: 10 :: rest))
    (enc.length + s.length + 1) (by simp [i64Max]; omega)]
  dsimp only
  rw [show i64ToUsize ((enc.length + s.length + 1 : Nat) : Int) = enc.length + s.length + 1
    from i64ToUsize_natCast _ (by omega)]
  rw [show (pre ++ [61]) ++ natToDec (enc.length + s.length + 1)
        ++ 13 :: 10 :: (enc ++ 58 :: (s ++ 13 :: 10 :: rest))
      = ((pre ++ [61]) ++ natToDec (enc.length + s.length + 1) ++ [13, 10])
        ++ (enc ++ 58 :: s) ++ 13 :: 10 :: rest by simp]
  have hpos : (pre ++ [61]).length + (natToDec (enc.length + s.length + 1)).length + 2
      = ((pre ++ [61]) ++ natToDec (enc.length + s.length + 1) ++ [13, 10]).length := by
    simp only [List.length_append, List.length_cons, List.length_nil]
  rw [hpos]
  have hread := read_at ((pre ++ [61]) ++ natToDec (enc.length + s.length + 1) ++ [13, 10])
    (enc ++ 58 :: s) (13 :: 10 :: rest) (by simp; omega)
  rw [show (enc ++ 58 :: s).length = enc.length + s.length + 1
    from by simp only [List.length_append, List.length_cons]; omega] at hread
  rw [hread]
  dsimp only
  rw [if_neg (show ¬((enc ++ 58 :: s).length ≤ 3)
    from by simp only [List.length_append, List.length_cons, henc]; omega)]
  have h58 : (enc ++ 58 :: s)[3]?.getD 0 = 58 := by
    rw [List.getElem?_append_right (by omega)]
    simp [henc]
  rw [if_pos h58]
  have htake : List.take 3 (enc ++ 58 :: s) = enc := by
    rw [show (3 : Nat) = enc.length from henc.symm]
    exact List.take_left _ _
  have hdrop : List.drop 4 (enc ++ 58 :: s) = s := by
    rw [show enc ++ 58 :: s = (enc ++ [58]) ++ s from by simp,
      show (4 : Nat) = (enc ++ [58]).length from by simp [henc]]
    exact List.drop_left _ _
  rw [htake, hdrop]
  rw [if_neg (show ¬(validUtf8 enc = false) from by simp [hu1])]
  rw [if_neg (show ¬(validUtf8 s = false) from by simp [hu2])]

theorem parse_asBytes_main (v : RespValue) (hWF : WF v = true)
    (hC : Composable v = true ∨ leavesTrailer v = true)
    (hsz : (RespValue.asBytes v).length < 2 ^ 64) :
    parse (RespValue.asBytes v) = .ok v := by
  rcases hC with hC | hT
  · have h := (parse_asBytes_aux (2 * (RespValue.asBytes v).length + 1)).1 v [] []
      hWF hC (by simp) (by simpa using hsz)
    simp only [List.nil_append, List.append_nil, List.length_nil, Nat.zero_add] at h
    unfold parse
    rw [h]
  · cases v
    all_goals try exact Bool.noConfusion hT
    case trueV => rfl
    case falseV => rfl
    case bulkError s =>
      simp only [WF, Bool.and_eq_true, decide_eq_true_eq] at hWF
      have h := parseValue_bulkError (2 * (RespValue.asBytes (.bulkError s)).length) s [] []
        hWF.1 hWF.2 (by simpa using hsz)
      simp only [List.nil_append, List.append_nil, List.length_nil, Nat.zero_add] at h
      unfold parse
      rw [h]
    case verbatimString enc s =>
      simp only [WF, Bool.and_eq_true, decide_eq_true_eq] at hWF
      have h := parseValue_verbatim (2 * (RespValue.asBytes (.verbatimString enc s)).length)
        enc s [] [] hWF.1.1.1 hWF.1.1.2 hWF.1.2 hWF.2 (by simpa using hsz)
      simp only [List.nil_append, List.append_nil, List.length_nil, Nat.zero_add] at h
      unfold parse
      rw [h]

end RedisRust

namespace RedisRust

/-- **C2** (corrected). Decode inverts encode on the well-formed values: if `v`
satisfies `WF` (payloads that survive the line framing: no embedded CRLF, valid
UTF-8 where re-read as a string, sign-and-digits big numbers, 3-byte verbatim
tags, `i64`-range integers and lengths, finite-float doubles) and its encoding
fits a `usize`, then — provided no Boolean, BulkError or VerbatimString occurs
strictly inside it (those decoder branches leave their final CRLF unconsumed,
so as top-level value they are still recovered, `leavesTrailer`) — `parse` of
`as_bytes v` succeeds with exactly `v`.  The unrestricted claim is false:
`decode_encode_cx`. -/
theorem decode_encode_roundtrip (v : RespValue) (hWF : WF v = true)
    (hC : Composable v = true ∨ leavesTrailer v = true)
    (hsz : (RespValue.asBytes v).length < 2 ^ 64) :
    parse (RespValue.asBytes v) = .ok v :=
  parse_asBytes_main v hWF hC hsz

/-- Witness for C2 at a concrete nested value (array containing an integer, a
bulk string and a map). -/
theorem decode_encode_roundtrip_witness :
    WF (RespValue.array [RespValue.integer (-42), RespValue.bulkString [104, 105],
        RespValue.map [(RespValue.simpleString [107], RespValue.null)]]) = true ∧
      parse (RespValue.asBytes (RespValue.array [RespValue.integer (-42),
          RespValue.bulkString [104, 105],
          RespValue.map [(RespValue.simpleString [107], RespValue.null)]]))
        = .ok (RespValue.array [RespValue.integer (-42), RespValue.bulkString [104, 105],
            RespValue.map [(RespValue.simpleString [107], RespValue.null)]]) :=
  ⟨by decide, decode_encode_roundtrip _ (by decide) (Or.inl (by decide)) (by decide)⟩

/-- Counterexample to C2 as stated: `BigNumber("")` is a constructible value
(`RespValue::BigNumber(String::new())`), but its encoding `(\r\n` fails the
decoder's sign-and-digits check, so `parse` rejects it instead of returning the
value. -/
theorem decode_encode_cx :
    parse (RespValue.asBytes (RespValue.bigNumber [])) ≠ .ok (RespValue.bigNumber []) := by
  intro h
  rw [show parse (RespValue.asBytes (RespValue.bigNumber []))
      = .error (.err .invalidInput) from rfl] at h
  exact Except.noConfusion h

/-- **C3** (corrected). Encode inverts decode only on the exact encodings of
well-formed values: for such bytes (`as_bytes v` with `WF v`, nothing
trailer-leaving strictly inside, size within `usize`) the parsed value
re-encodes to the original bytes.  On general accepted inputs the law fails —
not only for `*-1\r\n`: the decoder also ignores trailing bytes and accepts
non-canonical integer spellings (`encode_decode_cx`). -/
theorem encode_decode_on_image (v : RespValue) (hWF : WF v = true)
    (hC : Composable v = true ∨ leavesTrailer v = true)
    (hsz : (RespValue.asBytes v).length < 2 ^ 64) :
    ∃ w, parse (RespValue.asBytes v) = .ok w
      ∧ RespValue.asBytes w = RespValue.asBytes v :=
  ⟨v, parse_asBytes_main v hWF hC hsz, rfl⟩

/-- Witness for C3 at a concrete value of a trailer-leaving kind (a bulk
error), whose encoding still round-trips as the whole input. -/
theorem encode_decode_on_image_witness :
    WF (RespValue.bulkError [65]) = true ∧
      ∃ w, parse (RespValue.asBytes (RespValue.bulkError [65])) = .ok w
        ∧ RespValue.asBytes w = RespValue.asBytes (RespValue.bulkError [65]) :=
  ⟨by decide, encode_decode_on_image _ (by decide) (Or.inr (by decide)) (by decide)⟩

/-- Counterexample to C3 as stated: `:+0\r\n` is accepted by `parse` (Rust's
`i64` parser takes a leading plus sign), decodes to `Integer(0)`, and
re-encodes as `:0\r\n` — not the original bytes, which are distinct from the
single excepted input `*-1\r\n`. -/
theorem encode_decode_cx :
    parse (ascii ":+0\r\n") = .ok (RespValue.integer 0)
      ∧ RespValue.asBytes (RespValue.integer 0) ≠ ascii ":+0\r\n"
      ∧ ascii ":+0\r\n" ≠ ascii "*-1\r\n" :=
  ⟨rfl, by decide, by decide⟩

end RedisRust
